import Mathlib

set_option maxHeartbeats 1000000

/-!
Verification development for the MCP-nlp2sql query orchestration engine.

The definitions below are shallow embeddings of the Python sources under
`app/`: pure functions model the pure parts, external effects (the MCP tool
session, the LLM completion call, `json.loads`) are passed in as explicit
oracle parameters, and Python exceptions are modelled with `Except String`.
-/

/-- JSON values, modelling the Python objects produced by `json.loads` and
consumed by `json.dumps`.  Numbers are restricted to integers, which is all
the claims need. -/
inductive Json where
  | null : Json
  | bool (b : Bool) : Json
  | num (n : Int) : Json
  | str (s : String) : Json
  | arr (xs : List Json) : Json
  | obj (fields : List (String × Json)) : Json

/-- Decidable equality for `Json`, by structural recursion (the derive
handler does not support the nested `List` occurrences). -/
def Json.beq : Json → Json → Bool
  | .null, .null => true
  | .bool a, .bool b => a == b
  | .num a, .num b => a == b
  | .str a, .str b => a == b
  | .arr xs, .arr ys => beqList xs ys
  | .obj xs, .obj ys => beqFields xs ys
  | _, _ => false
where
  beqList : List Json → List Json → Bool
    | [], [] => true
    | x :: xs, y :: ys => Json.beq x y && beqList xs ys
    | _, _ => false
  beqFields : List (String × Json) → List (String × Json) → Bool
    | [], [] => true
    | (k, v) :: xs, (l, w) :: ys => k == l && Json.beq v w && beqFields xs ys
    | _, _ => false

instance : BEq Json := ⟨Json.beq⟩

/-- Python's `dict.get(key, default)` on a JSON object field list: the first
binding of `key` wins. -/
def Json.getD (fields : List (String × Json)) (key : String) (dflt : Json) : Json :=
  match fields.find? (fun kv => kv.1 == key) with
  | some kv => kv.2
  | none => dflt

/-- Reads a list of JSON values as a list of strings, when all elements are
strings. -/
def Json.strList : List Json → Option (List String)
  | [] => some []
  | .str s :: rest =>
    match Json.strList rest with
    | some l => some (s :: l)
    | none => none
  | _ :: _ => none

/-- Reads a JSON value as a list of strings, when it is an array whose
elements are all strings. -/
def Json.asStringList : Json → Option (List String)
  | .arr xs => Json.strList xs
  | _ => none

/-- Tests whether the first list leads the second (`pat` is an initial
segment of `s`), by structural recursion so that concrete instances reduce
definitionally. -/
def charsLeadMatch : List Char → List Char → Bool
  | [], _ => true
  | _ :: _, [] => false
  | p :: ps, c :: cs => p == c && charsLeadMatch ps cs

/-- Substring occurrence test on character lists. -/
def charsHasSub (pat : List Char) : List Char → Bool
  | [] => pat.isEmpty
  | c :: rest => charsLeadMatch pat (c :: rest) || charsHasSub pat rest

/-- Python's substring containment test `pat in s` (for a nonempty
pattern). -/
def containsSub (s pat : String) : Bool :=
  charsHasSub pat.data s.data

/-- Python's `s.startswith(pat)`. -/
def pyStartsWith (s pat : String) : Bool :=
  charsLeadMatch pat.data s.data

/-- Drops as many leading characters from the first list as the second list
has. -/
def charsDropLen : List Char → List Char → List Char
  | s, [] => s
  | [], _ => []
  | _ :: cs, _ :: ps => charsDropLen cs ps

/-- Left-to-right non-overlapping replacement of a nonempty pattern, with a
fuel argument (instantiated with the text length) for structural
termination. -/
def pyReplaceChars (pat rep : List Char) : Nat → List Char → List Char
  | _, [] => []
  | 0, s => s
  | k + 1, c :: rest =>
    if charsLeadMatch pat (c :: rest) && !pat.isEmpty then
      rep ++ pyReplaceChars pat rep k (charsDropLen rest pat.tail)
    else
      c :: pyReplaceChars pat rep k rest

/-- Python's `s.replace(pat, rep)` for a nonempty pattern: every
non-overlapping occurrence is replaced, scanning left to right. -/
def pyReplace (s pat rep : String) : String :=
  String.mk (pyReplaceChars pat.data rep.data s.data.length s.data)

/-- Python's `s.lower()` (ASCII, which is all the inference compares). -/
def pyToLower (s : String) : String :=
  String.mk (s.data.map Char.toLower)

/-- Python's `s.upper()` (ASCII, which is all the inference compares). -/
def pyToUpper (s : String) : String :=
  String.mk (s.data.map Char.toUpper)

/-- Suffix test on strings (used only by the spec-side definitions). -/
def strEndsWith (s pat : String) : Bool :=
  charsLeadMatch pat.data.reverse s.data.reverse

/-- Strips the three-character suffix `_id` (used only by the spec-side
definitions). -/
def stripIdSuffix (s : String) : String :=
  String.mk (s.data.take (s.data.length - 3))

/-- One element of an MCP `CallToolResult.content` list: either a text
content object carrying a `text` attribute (`types.TextContent`) or some
other content kind without one (models both the `hasattr(content, 'text')`
test in `_execute_query` and the `isinstance(content, types.TextContent)`
test in the schema service). -/
inductive ToolContent where
  | withText (t : String) : ToolContent
  | noText : ToolContent
deriving DecidableEq

/-- Outcome of an `await session.call_tool(...)` invocation as seen by the
caller: either a returned result (a content list) or a raised exception
carrying its message.  This is the oracle interface for the MCP session. -/
inductive CallOutcome where
  | ok (content : List ToolContent) : CallOutcome
  | raised (msg : String) : CallOutcome
deriving DecidableEq

/-- Python's
`next((content.text for content in result.content if hasattr(content, 'text')), None)`:
the text of the first content element that has a `text` attribute. -/
def firstText : List ToolContent → Option String
  | [] => none
  | .withText t :: _ => some t
  | .noText :: rest => firstText rest

namespace QueryService

/-- Value returned by `QueryService._execute_query` when it does not raise:
either the parsed JSON result paired with `needs_refinement = False`, or the
error text paired with `needs_refinement = True`. -/
inductive ExecRet where
  | parsed (v : Json) : ExecRet
  | refine (errText : String) : ExecRet
deriving BEq

/-- Shallow embedding of the body of the outer `try` of
`QueryService._execute_query` (everything before the `except Exception`
handler), with `json.loads` passed in as the oracle `jsonLoads` (`.error`
carries the `JSONDecodeError` message).  An `.error` result models an
exception escaping the inner code. -/
def execute_query_inner (jsonLoads : String → Except String Json)
    (outcome : CallOutcome) (retry : Bool) : Except String ExecRet :=
  match outcome with
  | .raised msg => .error msg
  | .ok content =>
    if content.isEmpty then
      .error "No result content returned from query"
    else
      match firstText content with
      | none => .error "No text content in query result"
      | some t =>
        if t = "" then
          .error "No text content in query result"
        else
          match jsonLoads t with
          | .ok v => .ok (.parsed v)
          | .error e =>
            if pyStartsWith t "(" && containsSub t "Unknown column" then
              if retry then .ok (.refine t)
              else .error ("MySQL Error: " ++ t)
            else
              .error ("Failed to parse query result: " ++ e)

/-- Shallow embedding of `QueryService._execute_query`: the outer
`except Exception as e` handler catches every exception raised inside the
`try` block — including the `QueryError`s the block itself raises — and,
when `retry` is set, converts it into a `(str(e), True)` refinement request;
otherwise it re-raises as `QueryError("Query execution failed: ...")`. -/
def execute_query (jsonLoads : String → Except String Json)
    (outcome : CallOutcome) (retry : Bool) : Except String ExecRet :=
  match execute_query_inner jsonLoads outcome retry with
  | .ok v => .ok v
  | .error e =>
    if retry then .ok (.refine e)
    else .error ("Query execution failed: " ++ e)

/-- Result of the legacy `QueryService.process_query`: the final SQL text and
query result (when it succeeds) together with the number of
`sampling_service.refine_sql` round trips performed. -/
structure PQOutcome where
  result : Except String (String × Json)
  refineCalls : Nat

/-- Modelled from the spec: `sampling_service.generate_sql_and_viz`, the
initial SQL-and-visualization generation step of the legacy mode.  The
method is referenced by `QueryService.process_query` but its definition is
not part of the sources; per section 4.5 it produces the proposed SQL
statement (plus explanation/thought process/Metabase question, which the
claims do not inspect), or fails with a sampling error.  It is therefore an
oracle input here: `.ok sql` or `.error msg`. -/
abbrev GenOutcome := Except String String

/-- Shallow embedding of the legacy `QueryService.process_query` body
(`process_with_session`): generate SQL, execute with `retry=True`; when the
execution asks for refinement, call `refine_sql` exactly where the source
does and re-execute the refined SQL with `retry=False`.  Oracles: `gen` for
`generate_sql_and_viz`, `execOutcome` for `session.call_tool("query_database", ...)`
keyed by the SQL text, `refineOutcome` for `sampling_service.refine_sql`
(given the original SQL and the error text).  All exceptions surface as
`.error` in `result` (the wrapper re-raises `QueryError`s unchanged and
wraps anything else, which does not change which requests fail). -/
def process_query (jsonLoads : String → Except String Json)
    (gen : GenOutcome) (execOutcome : String → CallOutcome)
    (refineOutcome : String → String → Except String String) : PQOutcome :=
  match gen with
  | .error e => { result := .error e, refineCalls := 0 }
  | .ok sql =>
    match execute_query jsonLoads (execOutcome sql) true with
    | .error e => { result := .error e, refineCalls := 0 }
    | .ok (.parsed v) => { result := .ok (sql, v), refineCalls := 0 }
    | .ok (.refine errText) =>
      match refineOutcome sql errText with
      | .error e => { result := .error e, refineCalls := 1 }
      | .ok refinedSql =>
        match execute_query jsonLoads (execOutcome refinedSql) false with
        | .error e => { result := .error e, refineCalls := 1 }
        | .ok (.parsed v) => { result := .ok (refinedSql, v), refineCalls := 1 }
        | .ok (.refine e) => { result := .ok (refinedSql, .str e), refineCalls := 1 }

end QueryService

namespace SchemaService

/-- One column descriptor as produced by `describe_table` (a MySQL
`DESCRIBE` row): the relationship-inference code reads only the `Field` and
`Key` attributes, each of which may be absent from the JSON dict
(`column.get('Field', '')` / `column.get('Key', '')` default them to the
empty string; `column['Field']` raises `KeyError` when absent). -/
structure Column where
  Field : Option String
  Key : Option String
deriving DecidableEq

/-- One inferred relationship dict as appended by
`SchemaService._infer_relationships`. -/
structure Relationship where
  from_table : String
  to_table : String
  type : String
  from_column : String
  to_column : String
deriving DecidableEq

/-- Python's `possible_table in schema`: key membership in the (ordered)
table dict, here a key-value list. -/
def schemaHasKey (schema : List (String × List Column)) (name : String) : Bool :=
  schema.any (fun kv => kv.1 == name)

/-- Guard of the potential-foreign-key test in `_infer_relationships`:
`column.get('Key', '').upper() == 'MUL' or '_id' in column.get('Field', '').lower()`.
Note the test is substring containment of `_id` (case-insensitively), not an
ends-with test. -/
def isPotentialFK (c : Column) : Bool :=
  pyToUpper (c.Key.getD "") == "MUL" || containsSub (pyToLower (c.Field.getD "")) "_id"

/-- Inner loop of `_infer_relationships` over one table's column list,
appending matches in column order.  `column['Field']` is a plain item
access, so a qualifying column without a `Field` key raises `KeyError`
(modelled as `.error`); `possible_table = column['Field'].replace('_id', '')`
removes every (case-sensitive) occurrence of `_id`, not just a suffix. -/
def inferColumns (schema : List (String × List Column)) (table_name : String) :
    List Column → Except String (List Relationship)
  | [] => .ok []
  | c :: rest =>
    if isPotentialFK c then
      match c.Field with
      | none => .error "KeyError: Field"
      | some f =>
        let possible_table := pyReplace f "_id" ""
        match inferColumns schema table_name rest with
        | .error e => .error e
        | .ok tailRels =>
          if schemaHasKey schema possible_table then
            .ok ({ from_table := table_name, to_table := possible_table,
                   type := "foreign_key", from_column := f,
                   to_column := "id" } :: tailRels)
          else
            .ok tailRels
    else
      inferColumns schema table_name rest

/-- Shallow embedding of `SchemaService._infer_relationships`: fold
`inferColumns` over the tables in dict order, concatenating the appended
relationships. -/
def infer_relationships (schema : List (String × List Column)) :
    Except String (List Relationship) :=
  go schema
where
  go : List (String × List Column) → Except String (List Relationship)
    | [] => .ok []
    | (table_name, cols) :: rest =>
      match inferColumns schema table_name cols with
      | .error e => .error e
      | .ok rels =>
        match go rest with
        | .error e => .error e
        | .ok rels2 => .ok (rels ++ rels2)

/-- A schema snapshot as returned by `_get_schema_from_tools` and
`_get_schema_from_resources`: the table map together with the inferred
relationships. -/
structure SchemaSnapshot where
  tables : List (String × List Column)
  relationships : List Relationship
deriving DecidableEq

/-- Per-table body of the fetch loop in `_get_schema_from_tools`: a failed
or empty `describe_table` result, or one whose text does not parse as JSON,
is skipped (`continue` after logging); a successful one adds
`schema[table] = json.loads(struct_text)`.  `decodeColumns` abstracts the
JSON-to-column-descriptor reading of the parsed rows (only the `Field` and
`Key` string attributes are retained, the ones the inference reads). -/
def fetchTable (jsonLoads : String → Except String Json)
    (decodeColumns : Json → Option (List Column))
    (describe : String → CallOutcome) (table : String) : Option (List Column) :=
  match describe table with
  | .raised _ => none
  | .ok content =>
    if content.isEmpty then none
    else
      match firstText content with
      | none => none
      | some t =>
        if t = "" then none
        else
          match jsonLoads t with
          | .error _ => none
          | .ok v => decodeColumns v

/-- Shallow embedding of `SchemaService._get_schema_from_tools`: list the
tables via the `list_tables` tool (whose contract returns a JSON array of
table-name strings — see `mysql-mcp/src/mysql_mcp/server.py`,
`list_tables() -> list[str]`), fetch each table's structure with
`describe_table` (skipping per-table failures), then assemble the snapshot
with the inferred relationships of exactly the assembled table map. -/
def get_schema_from_tools (jsonLoads : String → Except String Json)
    (decodeColumns : Json → Option (List Column))
    (listTablesOutcome : CallOutcome) (describe : String → CallOutcome) :
    Except String SchemaSnapshot :=
  match listTablesOutcome with
  | .raised e => .error e
  | .ok content =>
    if content.isEmpty then .error "Failed to get tables list"
    else
      match firstText content with
      | none => .error "No text content in tables result"
      | some t =>
        if t = "" then .error "No text content in tables result"
        else
          match jsonLoads t with
          | .error e => .error ("Failed to parse tables JSON: " ++ e)
          | .ok v =>
            match v.asStringList with
            | none => .error "tables JSON is not an array of names"
            | some tables =>
              let schema := tables.foldl (fun acc table =>
                match fetchTable jsonLoads decodeColumns describe table with
                | none => acc
                | some cols => acc ++ [(table, cols)]) []
              match infer_relationships schema with
              | .error e => .error e
              | .ok rels => .ok { tables := schema, relationships := rels }

end SchemaService

namespace ToolHandler

/-- The `ToolCallLog` pydantic model of `tool_handler.py`.  The `datetime`
field is represented by its canonical ISO-8601 rendering (Python datetimes
correspond one-to-one with their `isoformat()` strings); `result` is the
field list of the `Dict[str, Any]` payload. -/
structure ToolCallLog where
  type : String
  status : String
  timestamp : String
  logs : List String
  result : List (String × Json)
  id : Option String

/-- Parsed form of one `<tool_call>` element of the tagged-text block, as
`ElementTree` hands it to `from_xml_string`: the three attributes may be
absent (`elem.get` returns `None`), and the optional `<logs>` / `<result>`
child elements carry JSON text payloads.  A payload text is identified with
its parsed JSON value (`json.dumps` and `json.loads` are mutually inverse on
the values concerned); `some none` stands for a child element whose text is
not valid JSON, on which `json.loads` raises. -/
structure ToolCallElem where
  typeAttr : Option String
  statusAttr : Option String
  timestampAttr : Option String
  logsElem : Option (Option Json)
  resultElem : Option (Option Json)

/-- Per-element body of `ToolCallLog.from_xml_string`.  `fromIso` models
`datetime.fromisoformat` (returning the datetime as its canonical string, or
`none` when it raises); `freshId` is the `str(uuid4())` drawn for this
element.  `none` models any exception inside the loop body: a missing
attribute (pydantic rejects `None` for `type`/`status`; a `None` timestamp
has no `.replace`), an invalid JSON payload, a payload of the wrong shape
(`logs` must validate as `List[str]`, `result` as a dict), or an unparsable
timestamp. -/
def parseElem (fromIso : String → Option String) (freshId : String)
    (e : ToolCallElem) : Option ToolCallLog := do
  let ty ← e.typeAttr
  let st ← e.statusAttr
  let tsRaw ← e.timestampAttr
  let logs ← match e.logsElem with
    | none => some ([] : List String)
    | some p => do
      let v ← p
      v.asStringList
  let result ← match e.resultElem with
    | none => some ([] : List (String × Json))
    | some p => do
      let v ← p
      match v with
      | .obj fs => some fs
      | _ => none
  let ts ← fromIso (pyReplace tsRaw "Z" "+00:00")
  some { type := ty, status := st, timestamp := ts, logs := logs,
         result := result, id := some freshId }

/-- Element-list part of `ToolCallLog.from_xml_string` (everything after
`ET.fromstring`): parse the `tool_call` elements in order, drawing a fresh
uuid per element; the first exception aborts the whole parse and is
re-raised as `ValueError("Failed to parse tool call XML: ...")`. -/
def fromXmlElems (fromIso : String → Option String) (freshIds : Nat → String) :
    List ToolCallElem → Except String (List ToolCallLog) :=
  go 0
where
  go : Nat → List ToolCallElem → Except String (List ToolCallLog)
    | _, [] => .ok []
    | i, e :: rest =>
      match parseElem fromIso (freshIds i) e with
      | none => .error "Failed to parse tool call XML: parse error"
      | some log =>
        match go (i + 1) rest with
        | .error msg => .error msg
        | .ok logs => .ok (log :: logs)

/-- Shallow embedding of `ToolCallLog.from_xml_string` on the raw string:
`xmlParse` models `ET.fromstring` plus the `.//tool_call` findall (failing
when the string is not well-formed XML), after which the element list is
processed by `fromXmlElems`. -/
def from_xml_string (xmlParse : String → Except String (List ToolCallElem))
    (fromIso : String → Option String) (freshIds : Nat → String)
    (s : String) : Except String (List ToolCallLog) :=
  match xmlParse s with
  | .error e => .error ("Failed to parse tool call XML: " ++ e)
  | .ok elems => fromXmlElems fromIso freshIds elems

/-- Messages in the OpenAI chat shape produced by the conversation
formatter: a plain role/content message, an assistant message carrying one
tool call (its `content` is the empty string), or a tool-result message.
The `json.dumps`-ed `arguments` and `content` strings are identified with
their JSON values. -/
inductive OAMsg where
  | plain (role content : String) : OAMsg
  | assistantToolCalls (id : Option String) (name : String) (arguments : Json) : OAMsg
  | tool (content : Json) (tool_call_id : Option String) : OAMsg

/-- Shallow embedding of `ToolCallLog.to_assistant_message`: an assistant
message with empty content and a single function tool call whose arguments
are `json.dumps({"params": self.result.get("result", {})})`. -/
def ToolCallLog.to_assistant_message (t : ToolCallLog) : OAMsg :=
  .assistantToolCalls t.id t.type
    (.obj [("params", Json.getD t.result "result" (.obj []))])

/-- Shallow embedding of `ToolCallLog.to_tool_message`: a tool message whose
content is `json.dumps({"status": ..., "logs": ..., "result": ...})`. -/
def ToolCallLog.to_tool_message (t : ToolCallLog) : OAMsg :=
  .tool (.obj [("status", .str t.status),
               ("logs", .arr (t.logs.map .str)),
               ("result", .obj t.result)])
    t.id

/-- Items of `MessageWithToolHistory.raw_llm_response`: dicts read through
`r.get("type")` and `r.get("text")`. -/
structure RawLLM where
  type : Option String
  text : Option String

/-- The `MessageWithToolHistory` pydantic model. -/
structure MessageWithToolHistory where
  content : String
  role : String
  tool_calls : Option String
  raw_llm_response : Option (List RawLLM)

/-- Base-content selection of `MessageWithToolHistory.get_messages`: when a
nonempty `raw_llm_response` is present, the last nonempty `text` of a
`"text"`-typed fragment wins, otherwise the stored `content`. -/
def baseContent (m : MessageWithToolHistory) : String :=
  match m.raw_llm_response with
  | none => m.content
  | some raws =>
    if raws.isEmpty then m.content
    else
      let jsonResponses := raws.filterMap (fun r =>
        if r.type == some "text" then
          match r.text with
          | some t => if t = "" then none else some t
          | none => none
        else none)
      match jsonResponses.getLast? with
      | some t => t
      | none => m.content

/-- Shallow embedding of `MessageWithToolHistory.get_messages`: the base
role/content message, followed — when a (truthy) serialized tool-call log is
present — by the assistant/tool message pair of each parsed `ToolCallLog`;
a parse failure is re-raised as
`ValueError("Invalid tool calls format: ...")`. -/
def get_messages (xmlParse : String → Except String (List ToolCallElem))
    (fromIso : String → Option String) (freshIds : Nat → String)
    (m : MessageWithToolHistory) : Except String (List OAMsg) :=
  let base := OAMsg.plain m.role (baseContent m)
  match m.tool_calls with
  | none => .ok [base]
  | some s =>
    if s = "" then .ok [base]
    else
      match from_xml_string xmlParse fromIso freshIds s with
      | .error e => .error ("Invalid tool calls format: " ++ e)
      | .ok logs =>
        .ok (base :: logs.flatMap (fun c =>
          [c.to_assistant_message, c.to_tool_message]))

/-- Shallow embedding of `SamplingService._format_messages`: a leading
developer message, then each history turn's messages — with a `ValueError`
from `get_messages` caught per turn and replaced by the turn's basic
role/content message (the logged warning is not modelled) — and the current
question appended last as a user message.  It is a total function: no parse
failure escapes. -/
def format_messages (xmlParse : String → Except String (List ToolCallElem))
    (fromIso : String → Option String) (freshIds : Nat → String)
    (system_prompt question : String)
    (message_history : Option (List MessageWithToolHistory)) : List OAMsg :=
  let histMsgs : List OAMsg :=
    match message_history with
    | none => []
    | some hist =>
      if hist.isEmpty then []
      else hist.flatMap (fun m =>
        match get_messages xmlParse fromIso freshIds m with
        | .ok l => l
        | .error _ => [.plain m.role m.content])
  .plain "developer" system_prompt :: histMsgs ++ [.plain "user" question]

end ToolHandler

namespace LLM

/-- One tool-call proposal inside a model response: Anthropic's `tool_use`
content block (`id`/`name`/`input`) or OpenAI's `message.tool_calls` entry
(`id`/`function.name`/`function.arguments`, the arguments string identified
with its parsed JSON object — both loops pass it through
`json.loads`/`json.dumps`). -/
structure ToolUse where
  id : String
  name : String
  input : Json

/-- One model response in provider-independent form, the common input the
interchangeability claim quantifies over: the optional text part (Anthropic:
the `text` content block, OpenAI: `message.content`) and the proposed tool
calls in order.  The completion API itself (model id, temperature, the
merged tool declarations) only shapes what the model answers, so the
response sequence is the oracle here. -/
structure ModelResponse where
  content : Option String
  toolUses : List ToolUse

/-- One recorded domain-tool invocation, the
`{"type": name, "params": input}` dict both loops append to `tool_calls`. -/
structure DomainCall where
  type : String
  params : Json

/-- The provider-independent structured result both `process_chain`
implementations serialize with `json.dumps` and return:
`{"explanation": ..., "tool_calls": [...]}` (`none` models JSON `null`). -/
structure ChainResult where
  explanation : Option String
  toolCalls : List DomainCall

/-- Chat messages as they appear in the running message lists of the two
loops: the caller-supplied plain role/content dicts, Anthropic's
assistant-`tool_use` / user-`tool_result` pair, and OpenAI's
assistant-`tool_calls` / `tool` pair. -/
inductive ChatMsg where
  | plain (role content : String) : ChatMsg
  | anthToolUse (id name : String) (input : Json) : ChatMsg
  | anthToolResult (tool_use_id : String) (content : String) : ChatMsg
  | oaToolCall (id name : String) (arguments : Json) : ChatMsg
  | oaToolResult (content : String) (tool_call_id : String) : ChatMsg

/-- Python's `x or default` on an optional string: `None` and the empty
string both fall back to the default. -/
def pyOr (s : Option String) (dflt : String) : String :=
  match s with
  | none => dflt
  | some t => if t = "" then dflt else t

/-- Running state of a tool-use loop: the message list being grown, the
tool calls forwarded to the MCP session so far (name and arguments, in
execution order), and the number of completion calls made. -/
structure ChainState where
  msgs : List ChatMsg
  forwarded : List (String × Json)
  llmCalls : Nat

/-- Outcome of one `process_chain` call: the returned structured result (or
the raised `SamplingError` message), the message list the CALLER observes in
its own list object after the call, the internal final message list, the
forwarded MCP tool calls, and the number of completion calls. -/
structure ChainOutcome where
  result : Except String ChainResult
  callerMsgs : List ChatMsg
  internalMsgs : List ChatMsg
  forwarded : List (String × Json)
  llmCalls : Nat

/-- Tool-call handling of one Anthropic response (the
`for content in response.content` body restricted to `tool_use` blocks): a
name in the fixed catalogue (`self.tools`) is recorded as a domain call;
anything else is forwarded to `session.call_tool` and the
assistant-`tool_use`/user-`tool_result` pair is appended to the message
list.  `tool` is the session oracle, returning the text extracted from the
tool result (`content[0].text if content else ""`). -/
def anthHandleToolUses (catalogue : List String) (tool : String → Json → String) :
    List ToolUse → List ChatMsg → List (String × Json) →
    List DomainCall × List ChatMsg × List (String × Json)
  | [], msgs, fwd => ([], msgs, fwd)
  | u :: rest, msgs, fwd =>
    if catalogue.contains u.name then
      let (dcs, m, f) := anthHandleToolUses catalogue tool rest msgs fwd
      ({ type := u.name, params := u.input } :: dcs, m, f)
    else
      anthHandleToolUses catalogue tool rest
        (msgs ++ [.anthToolUse u.id u.name u.input,
                  .anthToolResult u.id (tool u.name u.input)])
        (fwd ++ [(u.name, u.input)])

/-- Tool-call handling of one OpenAI response (the
`for tool_call in message.tool_calls` body): identical branching on
catalogue membership, with the OpenAI-shaped
assistant-`tool_calls`/`tool` message pair appended for forwarded calls. -/
def oaHandleToolCalls (catalogue : List String) (tool : String → Json → String) :
    List ToolUse → List ChatMsg → List (String × Json) →
    List DomainCall × List ChatMsg × List (String × Json)
  | [], msgs, fwd => ([], msgs, fwd)
  | u :: rest, msgs, fwd =>
    if catalogue.contains u.name then
      let (dcs, m, f) := oaHandleToolCalls catalogue tool rest msgs fwd
      ({ type := u.name, params := u.input } :: dcs, m, f)
    else
      oaHandleToolCalls catalogue tool rest
        (msgs ++ [.oaToolCall u.id u.name u.input,
                  .oaToolResult (tool u.name u.input) u.id])
        (fwd ++ [(u.name, u.input)])

/-- The `while iteration < max_iterations` loop of
`AnthropicService.process_chain`, by recursion on the remaining iteration
budget.  `llm` is the completion oracle, indexed by how many completion
calls were made before.  If the round produced domain calls, return them
with the joined text blocks (or the default explanation); otherwise return
the text content if nonempty; otherwise loop.  An exhausted budget raises
`SamplingError("Exceeded maximum tool use iterations")`. -/
def anthropicLoop (catalogue : List String) (llm : Nat → ModelResponse)
    (tool : String → Json → String) :
    Nat → ChainState → Except String ChainResult × ChainState
  | 0, st => (.error "Exceeded maximum tool use iterations", st)
  | fuel + 1, st =>
    let resp := llm st.llmCalls
    let (dcs, msgs1, fwd1) :=
      anthHandleToolUses catalogue tool resp.toolUses st.msgs st.forwarded
    let st1 : ChainState := ⟨msgs1, fwd1, st.llmCalls + 1⟩
    if dcs.isEmpty then
      let textResponse := resp.content.getD ""
      if textResponse = "" then
        anthropicLoop catalogue llm tool fuel st1
      else
        (.ok { explanation := some textResponse, toolCalls := [] }, st1)
    else
      (.ok { explanation := some (pyOr resp.content "Executing operations..."),
             toolCalls := dcs }, st1)

/-- Shallow embedding of `AnthropicService.process_chain`.  The message list
is mutated in place (`messages.extend(...)`), so the caller-visible list
after the call is the loop's final list. -/
def anthropic_process_chain (catalogue : List String) (llm : Nat → ModelResponse)
    (tool : String → Json → String) (messages : List ChatMsg)
    (max_iterations : Nat := 5) : ChainOutcome :=
  let (res, st) := anthropicLoop catalogue llm tool max_iterations ⟨messages, [], 0⟩
  { result := res, callerMsgs := st.msgs, internalMsgs := st.msgs,
    forwarded := st.forwarded, llmCalls := st.llmCalls }

/-- The `while iteration < max_iterations` loop of
`OpenAIService.process_chain`.  A response without tool calls returns
`message.content` verbatim as the explanation (possibly `null`); a response
with tool calls forwards the non-catalogue ones, and returns exactly when at
least one domain call was recorded. -/
def openaiLoop (catalogue : List String) (llm : Nat → ModelResponse)
    (tool : String → Json → String) :
    Nat → ChainState → Except String ChainResult × ChainState
  | 0, st => (.error "Exceeded maximum tool use iterations", st)
  | fuel + 1, st =>
    let resp := llm st.llmCalls
    if resp.toolUses.isEmpty then
      (.ok { explanation := resp.content, toolCalls := [] },
       { st with llmCalls := st.llmCalls + 1 })
    else
      let (dcs, msgs1, fwd1) :=
        oaHandleToolCalls catalogue tool resp.toolUses st.msgs st.forwarded
      let st1 : ChainState := ⟨msgs1, fwd1, st.llmCalls + 1⟩
      if dcs.isEmpty then
        openaiLoop catalogue llm tool fuel st1
      else
        (.ok { explanation := some (pyOr resp.content "Executing operations..."),
               toolCalls := dcs }, st1)

/-- Shallow embedding of `OpenAIService.process_chain`.  The loop works on
`formatted_messages`, a fresh list built from the caller's messages (copying
`role`/`content` and the tool-call keys, which is the identity on the
message shapes involved), so the caller-supplied list is left unchanged on
every execution path while the private copy grows. -/
def openai_process_chain (catalogue : List String) (llm : Nat → ModelResponse)
    (tool : String → Json → String) (messages : List ChatMsg)
    (max_iterations : Nat := 10) : ChainOutcome :=
  let (res, st) := openaiLoop catalogue llm tool max_iterations ⟨messages, [], 0⟩
  { result := res, callerMsgs := messages, internalMsgs := st.msgs,
    forwarded := st.forwarded, llmCalls := st.llmCalls }

end LLM

namespace SchemaService

/-- Relationship inference as the claim states it (written from the spec
wording, for comparison with `infer_relationships` which is written from the
source): a relationship is recorded exactly for those columns whose key-role
indicates a multi-value index or whose name ENDS in the suffix `_id`; the
referenced table name is obtained by STRIPPING that suffix; it is emitted
only when the resulting name matches another known table, pointing at that
table's assumed primary key column `id`. -/
def spec_infer_relationships (schema : List (String × List Column)) :
    List Relationship :=
  schema.flatMap fun tc =>
    tc.2.filterMap fun c =>
      let f := c.Field.getD ""
      if pyToUpper (c.Key.getD "") == "MUL" || strEndsWith f "_id" then
        let possible_table := if strEndsWith f "_id" then stripIdSuffix f else f
        if schemaHasKey schema possible_table then
          some { from_table := tc.1, to_table := possible_table,
                 type := "foreign_key", from_column := f, to_column := "id" }
        else none
      else none

/-- Relationship inference as the AMENDED claim states it: the trigger is
key-role `MUL` (after upper-casing) or the lower-cased column name
CONTAINING the substring `_id`; the candidate referenced table name is the
column name with every case-sensitive occurrence of `_id` removed; emitted
only when the candidate is a known table, with `to_column = "id"`. -/
def amended_infer_relationships (schema : List (String × List Column)) :
    List Relationship :=
  schema.flatMap fun tc =>
    tc.2.filterMap fun c =>
      if pyToUpper (c.Key.getD "") == "MUL"
          || containsSub (pyToLower (c.Field.getD "")) "_id" then
        let f := c.Field.getD ""
        let possible_table := pyReplace f "_id" ""
        if schemaHasKey schema possible_table then
          some { from_table := tc.1, to_table := possible_table,
                 type := "foreign_key", from_column := f, to_column := "id" }
        else none
      else none

end SchemaService

namespace ToolHandler

/-- Modelled from the spec: the tagged-text (XML) serialization of a
`ToolCallRecord` (spec section 3).  The repository only PARSES this form
(`ToolCallLog.from_xml_string`); the block is produced by the caller side
and no serializer exists under the sources, so it is modelled from the
spec's description of the record: one `tool_call` element carrying the
`type`/`status`/`timestamp` attributes and the `logs`/`result` JSON
payloads (the timestamp attribute being the datetime's `isoformat()`
rendering, which never uses the `Z` suffix). -/
def toXmlElem (t : ToolCallLog) : ToolCallElem :=
  { typeAttr := some t.type, statusAttr := some t.status,
    timestampAttr := some t.timestamp,
    logsElem := some (some (.arr (t.logs.map .str))),
    resultElem := some (some (.obj t.result)) }

/-- Projection: the `arguments` JSON of an assistant tool-call message. -/
def OAMsg.argumentsOf : OAMsg → Option Json
  | .assistantToolCalls _ _ a => some a
  | _ => none

/-- Projection: the tool-call `id` of an assistant tool-call message. -/
def OAMsg.callIdOf : OAMsg → Option (Option String)
  | .assistantToolCalls i _ _ => some i
  | _ => none

/-- Projection: the `content` JSON of a tool message. -/
def OAMsg.toolContentOf : OAMsg → Option Json
  | .tool c _ => some c
  | _ => none

/-- Projection: the `tool_call_id` of a tool message. -/
def OAMsg.toolIdOf : OAMsg → Option (Option String)
  | .tool _ i => some i
  | _ => none

end ToolHandler

/-- Concrete `json.loads` oracle that fails on every input, for inputs whose
text is never valid JSON. -/
def exJsonLoadsFail : String → Except String Json := fun _ => .error "Expecting value"

/-- Concrete MCP tool oracle used by the chain witnesses. -/
def exTool : String → Json → String := fun _ _ => "tool output"

/-- Concrete schema exhibiting the divergence of claim C8: the column name
`order_identifier` contains `_id` without ending in it, and removing every
`_id` occurrence yields `orderentifier`, which is a known table. -/
def c8Schema : List (String × List SchemaService.Column) :=
  [("t", [{ Field := some "order_identifier", Key := none }]),
   ("orderentifier", [])]

/-- The relationship the source emits on `c8Schema`. -/
def c8Rel : SchemaService.Relationship :=
  { from_table := "t", to_table := "orderentifier", type := "foreign_key",
    from_column := "order_identifier", to_column := "id" }

/-- Concrete XML-parse oracle that fails on every input, modelling
`ET.fromstring` on a malformed tagged-text block. -/
def c3Parse : String → Except String (List ToolHandler.ToolCallElem) :=
  fun _ => .error "syntax error: line 1, column 0"

/-- Concrete history turn carrying a malformed serialized tool-call log. -/
def c3Msg : ToolHandler.MessageWithToolHistory :=
  { content := "hello", role := "user",
    tool_calls := some "<tool_calls><tool_call", raw_llm_response := none }

/-- Concrete tool-call record for the round-trip counterexample, with a
known original id. -/
def c7Log : ToolHandler.ToolCallLog :=
  { type := "create_chart", status := "success",
    timestamp := "2024-01-01T00:00:00+00:00", logs := ["started"],
    result := [("result", Json.str "ok")], id := some "orig-id" }

/-- Concrete model-response sequence for the backend-divergence
counterexample: the first response has neither tool calls nor text, the
second is plain text. -/
def c5LLM : Nat → LLM.ModelResponse :=
  fun n => if n == 0 then { content := none, toolUses := [] }
           else { content := some "hi", toolUses := [] }

/-- Concrete `json.loads` oracle that parses every text as the empty JSON
object. -/
def exJsonLoadsObj : String → Except String Json := fun _ => .ok (.obj [])

/-- Concrete execution oracle for the double-failure scenario: the initial
SQL hits a transport error, and so does the refined SQL. -/
def c1Exec : String → CallOutcome :=
  fun s => if s = "SELECT 1" then .raised "db down" else .raised "connection lost"

/-- Concrete refinement oracle returning a fixed replacement statement. -/
def c1Refine : String → String → Except String String :=
  fun _ _ => .ok "SELECT 2"

/-- Concrete `json.loads` oracle for the schema-snapshot witness: the
table-list text parses to an array of names, any other text to itself. -/
def c9Loads : String → Except String Json :=
  fun s => if s = "T" then .ok (.arr [.str "org", .str "users"]) else .ok (.str s)

/-- Concrete column-decoding oracle for the schema-snapshot witness. -/
def c9Decode : Json → Option (List SchemaService.Column) := fun v =>
  match v with
  | .str "org" => some []
  | .str "users" => some [{ Field := some "org_id", Key := none }]
  | _ => none

/-- Concrete `describe_table` oracle echoing the table name as its text. -/
def c9Describe : String → CallOutcome := fun t => .ok [.withText t]

/-- Concrete `list_tables` outcome. -/
def c9ListTables : CallOutcome := .ok [.withText "T"]

/-- Concrete first model response containing a catalogue tool call, for the
backend-agreement witness. -/
def c5wLLM : Nat → LLM.ModelResponse :=
  fun _ => { content := some "done",
             toolUses := [{ id := "1", name := "create_chart", input := .obj [] }] }

/-- Helper: with `retry=False`, the inner body of `_execute_query` never
asks for refinement. -/
lemma execute_query_inner_no_refine (jsonLoads : String → Except String Json)
    (outcome : CallOutcome) (e : String) :
    QueryService.execute_query_inner jsonLoads outcome false ≠ .ok (.refine e) := by
  cases outcome with
  | raised msg => simp [QueryService.execute_query_inner]
  | ok content =>
    simp only [QueryService.execute_query_inner]
    split
    · simp
    · cases hft : firstText content with
      | none => simp
      | some t =>
        simp only []
        split
        · simp
        · cases hl : jsonLoads t with
          | ok v => simp [hl]
          | error e2 =>
            simp only [hl]
            split <;> simp

/-- C2_counterexample: an execution failure that is not a JSON-parse failure
of database-error shape — here an empty result content — still triggers the
refinement path when `retry=True`, instead of raising `QueryError`
immediately: the internally raised `QueryError` is caught by the outer
handler and converted into a refinement request. -/
theorem execute_query_empty_content_refines :
    QueryService.execute_query exJsonLoadsFail (.ok []) true
      = .ok (.refine "No result content returned from query") := rfl

/-- C2 (amended): with `retry=True`, `_execute_query` never raises — EVERY
execution failure (transport error, empty result, missing text, and any
JSON-parse failure, database-error-shaped or not) returns the error text
with `needs_refinement = True`, because the outer exception handler also
catches the internally raised `QueryError`s; a parsed result is returned
EXACTLY when the first text content is nonempty and parses as JSON (both
directions).  With `retry=False`, no refinement is ever requested and every
failure of the inner body raises the wrapped
`QueryError("Query execution failed: ...")` — in particular a transport
error does. -/
theorem execute_query_retry_semantics :
    (∀ (jsonLoads : String → Except String Json) (outcome : CallOutcome),
      ∃ r, QueryService.execute_query jsonLoads outcome true = .ok r)
    ∧ (∀ (jsonLoads : String → Except String Json) (outcome : CallOutcome) (v : Json),
        QueryService.execute_query jsonLoads outcome true = .ok (.parsed v) ↔
        ∃ content t, outcome = .ok content ∧ firstText content = some t
          ∧ t ≠ "" ∧ jsonLoads t = .ok v)
    ∧ (∀ (jsonLoads : String → Except String Json) (outcome : CallOutcome) (e : String),
        QueryService.execute_query jsonLoads outcome false ≠ .ok (.refine e))
    ∧ (∀ (jsonLoads : String → Except String Json) (outcome : CallOutcome) (e : String),
        QueryService.execute_query_inner jsonLoads outcome false = .error e →
        QueryService.execute_query jsonLoads outcome false
          = .error ("Query execution failed: " ++ e))
    ∧ (∀ (jsonLoads : String → Except String Json) (msg : String),
        QueryService.execute_query jsonLoads (.raised msg) false
          = .error ("Query execution failed: " ++ msg)) := by
  refine ⟨?_, ?_, ?_, ?_, ?_⟩
  · intro jsonLoads outcome
    cases h : QueryService.execute_query_inner jsonLoads outcome true with
    | ok r => exact ⟨r, by simp [QueryService.execute_query, h]⟩
    | error e => exact ⟨.refine e, by simp [QueryService.execute_query, h]⟩
  · intro jsonLoads outcome v
    constructor
    · intro hv
      have hinner : QueryService.execute_query_inner jsonLoads outcome true
          = .ok (.parsed v) := by
        cases h : QueryService.execute_query_inner jsonLoads outcome true with
        | ok r =>
          simp [QueryService.execute_query, h] at hv
          rw [hv]
        | error e => simp [QueryService.execute_query, h] at hv
      cases outcome with
      | raised msg => simp [QueryService.execute_query_inner] at hinner
      | ok content =>
        by_cases hempty : content.isEmpty
        · simp [QueryService.execute_query_inner, hempty] at hinner
        · cases hft : firstText content with
          | none => simp [QueryService.execute_query_inner, hempty, hft] at hinner
          | some t =>
            by_cases ht : t = ""
            · simp [QueryService.execute_query_inner, hempty, hft, ht] at hinner
            · cases hl : jsonLoads t with
              | ok w =>
                simp [QueryService.execute_query_inner, hempty, hft, ht, hl] at hinner
                exact ⟨content, t, rfl, hft, ht, by rw [hl, hinner]⟩
              | error e2 =>
                simp [QueryService.execute_query_inner, hempty, hft, ht, hl] at hinner
                split at hinner <;> simp at hinner
    · rintro ⟨content, t, rfl, hft, ht, hl⟩
      have hne : content.isEmpty = false := by
        cases content with
        | nil => simp [firstText] at hft
        | cons a rest => rfl
      simp [QueryService.execute_query, QueryService.execute_query_inner,
        hne, hft, ht, hl]
  · intro jsonLoads outcome e hcontra
    cases h : QueryService.execute_query_inner jsonLoads outcome false with
    | ok r =>
      simp [QueryService.execute_query, h] at hcontra
      rw [hcontra] at h
      exact execute_query_inner_no_refine jsonLoads outcome e h
    | error e2 => simp [QueryService.execute_query, h] at hcontra
  · intro jsonLoads outcome e h
    simp [QueryService.execute_query, h]
  · intro jsonLoads msg
    simp [QueryService.execute_query, QueryService.execute_query_inner]

/-- Witness for `execute_query_retry_semantics`: applying the parsed-result
characterization at a concrete successful execution, in both directions. -/
theorem execute_query_retry_semantics_witness :
    QueryService.execute_query exJsonLoadsObj (.ok [.withText "x"]) true
      = .ok (.parsed (.obj []))
    ∧ ∃ content t, CallOutcome.ok [ToolContent.withText "x"] = .ok content
      ∧ firstText content = some t ∧ t ≠ "" ∧ exJsonLoadsObj t = .ok (.obj []) :=
  ⟨(execute_query_retry_semantics.2.1 exJsonLoadsObj
      (.ok [.withText "x"]) (.obj [])).mpr
    ⟨[.withText "x"], "x", rfl, rfl, by decide, rfl⟩,
   (execute_query_retry_semantics.2.1 exJsonLoadsObj
      (.ok [.withText "x"]) (.obj [])).mp rfl⟩

/-- C1: in the legacy single-SQL-statement mode, refinement is attempted at
most once.  First conjunct: on every run, `refine_sql` is called at most
once.  Second conjunct: whenever the initially generated SQL's execution
asks for refinement and the refined SQL's (non-retrying) execution fails,
`process_query` raises `QueryError` after exactly one `refine_sql` round
trip. -/
theorem process_query_single_refinement :
    ∀ (jsonLoads : String → Except String Json) (gen : QueryService.GenOutcome)
      (execOutcome : String → CallOutcome)
      (refineOutcome : String → String → Except String String),
      (QueryService.process_query jsonLoads gen execOutcome refineOutcome).refineCalls ≤ 1
      ∧ (∀ sql e1 rsql e2,
          gen = .ok sql →
          QueryService.execute_query jsonLoads (execOutcome sql) true = .ok (.refine e1) →
          refineOutcome sql e1 = .ok rsql →
          QueryService.execute_query jsonLoads (execOutcome rsql) false = .error e2 →
          QueryService.process_query jsonLoads gen execOutcome refineOutcome
            = { result := .error e2, refineCalls := 1 }) := by
  intro jsonLoads gen execOutcome refineOutcome
  constructor
  · cases gen with
    | error e => simp [QueryService.process_query]
    | ok sql =>
      cases h : QueryService.execute_query jsonLoads (execOutcome sql) true with
      | error e => simp [QueryService.process_query, h]
      | ok r =>
        cases r with
        | parsed v => simp [QueryService.process_query, h]
        | refine errText =>
          cases hr : refineOutcome sql errText with
          | error e => simp [QueryService.process_query, h, hr]
          | ok rsql =>
            cases h2 : QueryService.execute_query jsonLoads (execOutcome rsql) false with
            | error e => simp [QueryService.process_query, h, hr, h2]
            | ok r2 => cases r2 <;> simp [QueryService.process_query, h, hr, h2]
  · intro sql e1 rsql e2 hgen h1 hr h2
    subst hgen
    simp [QueryService.process_query, h1, hr, h2]

/-- Witness for `process_query_single_refinement`: a concrete run where both
the initial and the refined SQL fail with transport errors, ending in a
`QueryError` after exactly one refinement. -/
theorem process_query_single_refinement_witness :
    QueryService.process_query exJsonLoadsFail (.ok "SELECT 1") c1Exec c1Refine
      = { result := .error "Query execution failed: connection lost", refineCalls := 1 } :=
  (process_query_single_refinement exJsonLoadsFail (.ok "SELECT 1") c1Exec c1Refine).2
    "SELECT 1" "db down" "SELECT 2" "Query execution failed: connection lost"
    rfl rfl rfl rfl

/-- Helper: every relationship emitted by the per-table inference loop
points at column `id` of a known table. -/
lemma inferColumns_invariant (schema : List (String × List SchemaService.Column))
    (tname : String) :
    ∀ (cols : List SchemaService.Column) (rels : List SchemaService.Relationship),
      SchemaService.inferColumns schema tname cols = .ok rels →
      ∀ r ∈ rels, r.to_column = "id"
        ∧ SchemaService.schemaHasKey schema r.to_table = true := by
  intro cols
  induction cols with
  | nil =>
    intro rels h
    simp only [SchemaService.inferColumns] at h
    cases h
    intro r hr
    simp at hr
  | cons c rest ih =>
    intro rels h
    simp only [SchemaService.inferColumns] at h
    split at h
    · cases hf : c.Field with
      | none => rw [hf] at h; cases h
      | some f =>
        rw [hf] at h
        cases hrec : SchemaService.inferColumns schema tname rest with
        | error e => rw [hrec] at h; cases h
        | ok tl =>
          rw [hrec] at h
          dsimp only at h
          by_cases hkey : SchemaService.schemaHasKey schema (pyReplace f "_id" "") = true
          · rw [if_pos hkey] at h
            cases h
            intro r hr
            rcases List.mem_cons.mp hr with h1 | h1
            · subst h1; exact ⟨rfl, hkey⟩
            · exact ih _ hrec r h1
          · rw [if_neg hkey] at h
            cases h
            exact ih _ hrec
    · exact ih rels h

/-- Helper: the table-level inference fold preserves the invariant. -/
lemma infer_go_invariant (schema : List (String × List SchemaService.Column)) :
    ∀ (l : List (String × List SchemaService.Column))
      (rels : List SchemaService.Relationship),
      SchemaService.infer_relationships.go schema l = .ok rels →
      ∀ r ∈ rels, r.to_column = "id"
        ∧ SchemaService.schemaHasKey schema r.to_table = true := by
  intro l
  induction l with
  | nil =>
    intro rels h
    simp only [SchemaService.infer_relationships.go] at h
    cases h
    intro r hr
    simp at hr
  | cons tc rest ih =>
    intro rels h
    obtain ⟨tname, cols⟩ := tc
    simp only [SchemaService.infer_relationships.go] at h
    cases h1 : SchemaService.inferColumns schema tname cols with
    | error e => rw [h1] at h; cases h
    | ok rels1 =>
      rw [h1] at h
      cases h2 : SchemaService.infer_relationships.go schema rest with
      | error e => rw [h2] at h; cases h
      | ok rels2 =>
        rw [h2] at h
        cases h
        intro r hr
        rcases List.mem_append.mp hr with hm | hm
        · exact inferColumns_invariant schema tname cols rels1 h1 r hm
        · exact ih rels2 h2 r hm

/-- C9: every schema snapshot produced by the schema service satisfies the
heuristic invariant: each inferred relationship has `to_column = "id"` and
its `to_table` is a key of the snapshot's table map.  First conjunct: the
invariant for `_infer_relationships` against the table map it receives
(which is the map both snapshot producers pair it with); second conjunct:
the invariant on the assembled snapshot of `_get_schema_from_tools`. -/
theorem schema_snapshot_relationship_invariant :
    (∀ (schema : List (String × List SchemaService.Column))
        (rels : List SchemaService.Relationship),
      SchemaService.infer_relationships schema = .ok rels →
      ∀ r ∈ rels, r.to_column = "id"
        ∧ SchemaService.schemaHasKey schema r.to_table = true)
    ∧ (∀ (jsonLoads : String → Except String Json)
        (decodeColumns : Json → Option (List SchemaService.Column))
        (listTablesOutcome : CallOutcome) (describe : String → CallOutcome)
        (snap : SchemaService.SchemaSnapshot),
      SchemaService.get_schema_from_tools jsonLoads decodeColumns
          listTablesOutcome describe = .ok snap →
      ∀ r ∈ snap.relationships, r.to_column = "id"
        ∧ SchemaService.schemaHasKey snap.tables r.to_table = true) := by
  constructor
  · intro schema rels h
    exact infer_go_invariant schema schema rels h
  · intro jsonLoads decodeColumns listTablesOutcome describe snap h
    simp only [SchemaService.get_schema_from_tools] at h
    cases listTablesOutcome with
    | raised e => cases h
    | ok content =>
      dsimp only at h
      by_cases hempty : content.isEmpty
      · rw [if_pos hempty] at h; cases h
      · rw [if_neg hempty] at h
        cases hft : firstText content with
        | none => rw [hft] at h; cases h
        | some t =>
          rw [hft] at h
          dsimp only at h
          by_cases ht : t = ""
          · rw [if_pos ht] at h; cases h
          · rw [if_neg ht] at h
            cases hl : jsonLoads t with
            | error e => rw [hl] at h; cases h
            | ok v =>
              rw [hl] at h
              dsimp only at h
              cases hsl : v.asStringList with
              | none => rw [hsl] at h; cases h
              | some tables =>
                rw [hsl] at h
                dsimp only at h
                cases hinf : SchemaService.infer_relationships
                    (tables.foldl (fun acc table =>
                      match SchemaService.fetchTable jsonLoads decodeColumns
                          describe table with
                      | none => acc
                      | some cols => acc ++ [(table, cols)]) []) with
                | error e => rw [hinf] at h; cases h
                | ok rels =>
                  rw [hinf] at h
                  cases h
                  exact infer_go_invariant _ _ rels hinf

/-- Witness for `schema_snapshot_relationship_invariant`: a concrete schema
fetch whose snapshot contains one inferred relationship. -/
theorem schema_snapshot_relationship_invariant_witness :
    ∀ r ∈ (SchemaService.SchemaSnapshot.mk
        [("org", []), ("users", [{ Field := some "org_id", Key := none }])]
        [{ from_table := "users", to_table := "org", type := "foreign_key",
           from_column := "org_id", to_column := "id" }]).relationships,
      r.to_column = "id"
        ∧ SchemaService.schemaHasKey (SchemaService.SchemaSnapshot.mk
            [("org", []), ("users", [{ Field := some "org_id", Key := none }])]
            [{ from_table := "users", to_table := "org", type := "foreign_key",
               from_column := "org_id", to_column := "id" }]).tables r.to_table = true :=
  schema_snapshot_relationship_invariant.2 c9Loads c9Decode c9ListTables c9Describe
    (SchemaService.SchemaSnapshot.mk
      [("org", []), ("users", [{ Field := some "org_id", Key := none }])]
      [{ from_table := "users", to_table := "org", type := "foreign_key",
         from_column := "org_id", to_column := "id" }])
    (by rfl)

/-- C8_counterexample: the source triggers on `_id` as a SUBSTRING and
removes every occurrence, not only a suffix: on the column
`order_identifier` (which does not end in `_id`) with a table named
`orderentifier` present, `_infer_relationships` emits a foreign-key
relationship to `orderentifier`, while the claim's suffix rule emits
nothing. -/
theorem infer_relationships_contains_not_suffix :
    SchemaService.infer_relationships c8Schema = .ok [c8Rel]
    ∧ SchemaService.spec_infer_relationships c8Schema = []
    ∧ strEndsWith "order_identifier" "_id" = false :=
  ⟨rfl, rfl, rfl⟩

/-- Helper: under the assumption that every column row carries a `Field`
attribute (as `DESCRIBE` rows always do), the per-table inference loop
computes the amended filter. -/
lemma inferColumns_eq_filterMap (schema : List (String × List SchemaService.Column))
    (tname : String) :
    ∀ (cols : List SchemaService.Column),
      (∀ c ∈ cols, c.Field.isSome = true) →
      SchemaService.inferColumns schema tname cols
        = .ok (cols.filterMap (fun c =>
            if pyToUpper (c.Key.getD "") == "MUL"
                || containsSub (pyToLower (c.Field.getD "")) "_id" then
              let f := c.Field.getD ""
              let possible_table := pyReplace f "_id" ""
              if SchemaService.schemaHasKey schema possible_table then
                some { from_table := tname, to_table := possible_table,
                       type := "foreign_key", from_column := f, to_column := "id" }
              else none
            else none)) := by
  intro cols
  induction cols with
  | nil => intro _; rfl
  | cons c rest ih =>
    intro hfields
    have hc : c.Field.isSome = true := hfields c (List.mem_cons_self c rest)
    obtain ⟨f, hf⟩ := Option.isSome_iff_exists.mp hc
    have hrest := ih (fun c2 hc2 => hfields c2 (List.mem_cons_of_mem c hc2))
    have hgetd : c.Field.getD "" = f := by rw [hf]; rfl
    cases hcondb : (pyToUpper (c.Key.getD "") == "MUL"
        || containsSub (pyToLower f) "_id") with
    | false =>
      simp [SchemaService.inferColumns, SchemaService.isPotentialFK,
        List.filterMap_cons, hgetd, hcondb, hrest]
      have hP : ¬(pyToUpper (c.Key.getD "") = "MUL"
          ∨ containsSub (pyToLower f) "_id" = true) := by
        intro hor
        rcases hor with h1 | h2
        · simp [h1] at hcondb
        · simp [h2] at hcondb
      rw [if_neg hP]
    | true =>
      cases hkeyb : SchemaService.schemaHasKey schema (pyReplace f "_id" "") with
      | false =>
        simp [SchemaService.inferColumns, SchemaService.isPotentialFK,
          List.filterMap_cons, hgetd, hf, hcondb, hkeyb, hrest]
      | true =>
        simp [SchemaService.inferColumns, SchemaService.isPotentialFK,
          List.filterMap_cons, hgetd, hf, hcondb, hkeyb, hrest]
        have hP : pyToUpper (c.Key.getD "") = "MUL"
            ∨ containsSub (pyToLower f) "_id" = true := by
          have h2 := hcondb
          simp only [Bool.or_eq_true, beq_iff_eq] at h2
          exact h2
        rw [if_pos hP]

/-- Helper: the table-level fold computes the amended flatMap. -/
lemma infer_go_eq_flatMap (schema : List (String × List SchemaService.Column)) :
    ∀ (l : List (String × List SchemaService.Column)),
      (∀ tc ∈ l, ∀ c ∈ tc.2, c.Field.isSome = true) →
      SchemaService.infer_relationships.go schema l
        = .ok (l.flatMap (fun tc =>
            tc.2.filterMap (fun c =>
              if pyToUpper (c.Key.getD "") == "MUL"
                  || containsSub (pyToLower (c.Field.getD "")) "_id" then
                let f := c.Field.getD ""
                let possible_table := pyReplace f "_id" ""
                if SchemaService.schemaHasKey schema possible_table then
                  some { from_table := tc.1, to_table := possible_table,
                         type := "foreign_key", from_column := f, to_column := "id" }
                else none
              else none))) := by
  intro l
  induction l with
  | nil => intro _; rfl
  | cons tc rest ih =>
    intro hfields
    obtain ⟨tname, cols⟩ := tc
    have h1 := inferColumns_eq_filterMap schema tname cols
      (hfields (tname, cols) (List.mem_cons_self _ _))
    have h2 := ih (fun tc2 htc2 => hfields tc2 (List.mem_cons_of_mem _ htc2))
    simp only [SchemaService.infer_relationships.go, h1, h2, List.flatMap_cons]

/-- C8 (amended): relationship inference records a foreign-key relationship
exactly for those columns whose upper-cased key-role equals `MUL` or whose
lower-cased name CONTAINS the substring `_id`; the candidate referenced
table name is the column name with every case-sensitive occurrence of `_id`
removed (not a suffix strip), and a relationship is emitted only when the
candidate matches a known table, pointing at its assumed primary key column
`id`.  Stated for schemas whose column rows all carry the `Field` attribute
(as `DESCRIBE` rows do; a qualifying row without it raises `KeyError`). -/
theorem infer_relationships_amended_characterization :
    ∀ (schema : List (String × List SchemaService.Column)),
      (∀ tc ∈ schema, ∀ c ∈ tc.2, c.Field.isSome = true) →
      SchemaService.infer_relationships schema
        = .ok (SchemaService.amended_infer_relationships schema) := by
  intro schema hfields
  have h := infer_go_eq_flatMap schema schema hfields
  rw [SchemaService.infer_relationships, h,
    SchemaService.amended_infer_relationships]

/-- Witness for `infer_relationships_amended_characterization`, applied at
the concrete counterexample schema. -/
theorem infer_relationships_amended_characterization_witness :
    SchemaService.infer_relationships c8Schema
      = .ok (SchemaService.amended_infer_relationships c8Schema) :=
  infer_relationships_amended_characterization c8Schema (by decide)

/-- C3_counterexample: a history turn whose serialized tool-call log fails
to parse does NOT fail the request: `get_messages` raises, but
`_format_messages` catches the `ValueError` and keeps the turn as its plain
role/content message, so message building returns normally with the turn
kept without its tool calls. -/
theorem format_messages_keeps_failed_turn :
    ToolHandler.get_messages c3Parse (fun s => some s) (fun _ => "u") c3Msg
      = .error ("Invalid tool calls format: Failed to parse tool call XML: syntax error: line 1, column 0")
    ∧ ToolHandler.format_messages c3Parse (fun s => some s) (fun _ => "u")
        "SYS" "Q" (some [c3Msg])
      = [.plain "developer" "SYS", .plain "user" "hello", .plain "user" "Q"] :=
  ⟨rfl, rfl⟩

/-- C3 (amended): a parse failure on one historical turn raises inside
`get_messages` (a wrapped `ValueError`), but `SamplingService._format_messages`
catches it per turn and falls back to the turn's plain role/content message:
the request does not fail, the turn is kept WITHOUT its tool calls, and no
other turn's messages are dropped. -/
theorem format_messages_catches_history_parse_errors :
    (∀ (xmlParse : String → Except String (List ToolHandler.ToolCallElem))
        (fromIso : String → Option String) (freshIds : Nat → String)
        (m : ToolHandler.MessageWithToolHistory) (s e : String),
      m.tool_calls = some s → s ≠ "" → xmlParse s = .error e →
      ToolHandler.get_messages xmlParse fromIso freshIds m
        = .error ("Invalid tool calls format: "
            ++ ("Failed to parse tool call XML: " ++ e)))
    ∧ (∀ (xmlParse : String → Except String (List ToolHandler.ToolCallElem))
        (fromIso : String → Option String) (freshIds : Nat → String)
        (sys q : String) (hist : List ToolHandler.MessageWithToolHistory)
        (m : ToolHandler.MessageWithToolHistory),
      m ∈ hist →
      (∃ e, ToolHandler.get_messages xmlParse fromIso freshIds m = .error e) →
      ToolHandler.OAMsg.plain m.role m.content
        ∈ ToolHandler.format_messages xmlParse fromIso freshIds sys q (some hist))
    ∧ (∀ (xmlParse : String → Except String (List ToolHandler.ToolCallElem))
        (fromIso : String → Option String) (freshIds : Nat → String)
        (sys q : String) (hist : List ToolHandler.MessageWithToolHistory)
        (m : ToolHandler.MessageWithToolHistory)
        (msgs : List ToolHandler.OAMsg) (x : ToolHandler.OAMsg),
      m ∈ hist →
      ToolHandler.get_messages xmlParse fromIso freshIds m = .ok msgs →
      x ∈ msgs →
      x ∈ ToolHandler.format_messages xmlParse fromIso freshIds sys q (some hist)) := by
  refine ⟨?_, ?_, ?_⟩
  · intro xmlParse fromIso freshIds m s e hm hs hp
    simp only [ToolHandler.get_messages, hm]
    rw [if_neg hs]
    simp only [ToolHandler.from_xml_string, hp]
  · intro xmlParse fromIso freshIds sys q hist m hmem ⟨e, he⟩
    cases hist with
    | nil => cases hmem
    | cons a t =>
      simp only [ToolHandler.format_messages, List.isEmpty_cons, Bool.false_eq_true,
        if_false]
      apply List.mem_cons_of_mem
      apply List.mem_append_left
      apply List.mem_flatMap.mpr
      exact ⟨m, hmem, by rw [he]; exact List.mem_singleton.mpr rfl⟩
  · intro xmlParse fromIso freshIds sys q hist m msgs x hmem hok hx
    cases hist with
    | nil => cases hmem
    | cons a t =>
      simp only [ToolHandler.format_messages, List.isEmpty_cons, Bool.false_eq_true,
        if_false]
      apply List.mem_cons_of_mem
      apply List.mem_append_left
      apply List.mem_flatMap.mpr
      exact ⟨m, hmem, by rw [hok]; exact hx⟩

/-- Witness for `format_messages_catches_history_parse_errors`, applied at
the concrete malformed history turn. -/
theorem format_messages_catches_history_parse_errors_witness :
    ToolHandler.OAMsg.plain c3Msg.role c3Msg.content
      ∈ ToolHandler.format_messages c3Parse (fun s => some s) (fun _ => "u")
          "SYS" "Q" (some [c3Msg]) :=
  format_messages_catches_history_parse_errors.2.1 c3Parse (fun s => some s)
    (fun _ => "u") "SYS" "Q" [c3Msg] c3Msg (List.mem_singleton.mpr rfl)
    ⟨"Invalid tool calls format: Failed to parse tool call XML: syntax error: line 1, column 0", rfl⟩

/-- Helper: `Json.asStringList` inverts the string-list embedding. -/
lemma asStringList_map_str (l : List String) :
    Json.asStringList (.arr (l.map .str)) = some l := by
  simp only [Json.asStringList]
  induction l with
  | nil => rfl
  | cons s rest ih => simp [Json.strList, ih]

/-- C7 (amended): serializing a `ToolCallRecord` to its tagged-text form and
parsing it back preserves the type, status, timestamp, logs and result —
hence the reconstructed assistant message carries the same `arguments` and
the reconstructed tool message the same content payload — but the call id is
NOT preserved: `from_xml_string` draws a fresh uuid, so the assistant/tool
pair is internally consistent under the regenerated id rather than the
original one.  (`fromIso` models `datetime.fromisoformat`, assumed faithful
on the record's canonical timestamp rendering.) -/
theorem from_xml_round_trip_regenerates_id :
    ∀ (t : ToolHandler.ToolCallLog) (fromIso : String → Option String)
      (freshIds : Nat → String),
      fromIso (pyReplace t.timestamp "Z" "+00:00") = some t.timestamp →
      ToolHandler.fromXmlElems fromIso freshIds [ToolHandler.toXmlElem t]
        = .ok [{ t with id := some (freshIds 0) }]
      ∧ ToolHandler.OAMsg.argumentsOf
          (ToolHandler.ToolCallLog.to_assistant_message { t with id := some (freshIds 0) })
        = ToolHandler.OAMsg.argumentsOf t.to_assistant_message
      ∧ ToolHandler.OAMsg.toolContentOf
          (ToolHandler.ToolCallLog.to_tool_message { t with id := some (freshIds 0) })
        = ToolHandler.OAMsg.toolContentOf t.to_tool_message
      ∧ ToolHandler.OAMsg.callIdOf
          (ToolHandler.ToolCallLog.to_assistant_message { t with id := some (freshIds 0) })
        = some (some (freshIds 0))
      ∧ ToolHandler.OAMsg.toolIdOf
          (ToolHandler.ToolCallLog.to_tool_message { t with id := some (freshIds 0) })
        = some (some (freshIds 0)) := by
  intro t fromIso freshIds h
  refine ⟨?_, rfl, rfl, rfl, rfl⟩
  simp only [ToolHandler.fromXmlElems, ToolHandler.fromXmlElems.go,
    ToolHandler.parseElem, ToolHandler.toXmlElem, asStringList_map_str, h,
    Option.bind_eq_bind, Option.some_bind]

/-- Witness for `from_xml_round_trip_regenerates_id`, applied at the
concrete record. -/
theorem from_xml_round_trip_regenerates_id_witness :
    ToolHandler.fromXmlElems (fun s => some s) (fun _ => "fresh")
        [ToolHandler.toXmlElem c7Log]
      = .ok [{ c7Log with id := some "fresh" }] :=
  (from_xml_round_trip_regenerates_id c7Log (fun s => some s) (fun _ => "fresh") rfl).1

/-- C7_counterexample: the round trip does not preserve the call id
byte-for-byte: parsing back the serialized record yields a record whose id
is the freshly drawn uuid, different from the original id. -/
theorem from_xml_round_trip_id_not_preserved :
    ToolHandler.fromXmlElems (fun s => some s) (fun _ => "fresh")
        [ToolHandler.toXmlElem c7Log]
      = .ok [{ c7Log with id := some "fresh" }]
    ∧ ToolHandler.ToolCallLog.id { c7Log with id := some "fresh" } ≠ c7Log.id :=
  ⟨rfl, by decide⟩

namespace LLM

/-- Helper: the domain calls recorded for one response are exactly the
catalogue-named tool uses, in order (Anthropic loop body). -/
lemma anthHandle_domain_calls (c : List String) (tool : String → Json → String) :
    ∀ (us : List ToolUse) (msgs : List ChatMsg) (fwd : List (String × Json)),
      (anthHandleToolUses c tool us msgs fwd).1
        = (us.filter (fun u => c.contains u.name)).map
            (fun u => { type := u.name, params := u.input }) := by
  intro us
  induction us with
  | nil => intro msgs fwd; rfl
  | cons u rest ih =>
    intro msgs fwd
    by_cases hc : u.name ∈ c
    · simp [anthHandleToolUses, hc, List.filter_cons, ih]
    · simp [anthHandleToolUses, hc, List.filter_cons, ih]

/-- Helper: the forwarded MCP calls for one response are exactly the
non-catalogue tool uses, in order (Anthropic loop body). -/
lemma anthHandle_forwarded (c : List String) (tool : String → Json → String) :
    ∀ (us : List ToolUse) (msgs : List ChatMsg) (fwd : List (String × Json)),
      (anthHandleToolUses c tool us msgs fwd).2.2
        = fwd ++ (us.filter (fun u => !c.contains u.name)).map
            (fun u => (u.name, u.input)) := by
  intro us
  induction us with
  | nil => intro msgs fwd; simp [anthHandleToolUses]
  | cons u rest ih =>
    intro msgs fwd
    by_cases hc : u.name ∈ c
    · simp [anthHandleToolUses, hc, List.filter_cons, ih]
    · simp [anthHandleToolUses, hc, List.filter_cons, ih]

/-- Helper: the message list grows by exactly the assistant/tool-result
pairs of the forwarded calls (Anthropic loop body). -/
lemma anthHandle_msgs (c : List String) (tool : String → Json → String) :
    ∀ (us : List ToolUse) (msgs : List ChatMsg) (fwd : List (String × Json)),
      (anthHandleToolUses c tool us msgs fwd).2.1
        = msgs ++ (us.filter (fun u => !c.contains u.name)).flatMap
            (fun u => [ChatMsg.anthToolUse u.id u.name u.input,
                       ChatMsg.anthToolResult u.id (tool u.name u.input)]) := by
  intro us
  induction us with
  | nil => intro msgs fwd; simp [anthHandleToolUses]
  | cons u rest ih =>
    intro msgs fwd
    by_cases hc : u.name ∈ c
    · simp [anthHandleToolUses, hc, List.filter_cons, ih]
    · simp [anthHandleToolUses, hc, List.filter_cons, ih]

/-- Helper: same as `anthHandle_domain_calls` for the OpenAI loop body. -/
lemma oaHandle_domain_calls (c : List String) (tool : String → Json → String) :
    ∀ (us : List ToolUse) (msgs : List ChatMsg) (fwd : List (String × Json)),
      (oaHandleToolCalls c tool us msgs fwd).1
        = (us.filter (fun u => c.contains u.name)).map
            (fun u => { type := u.name, params := u.input }) := by
  intro us
  induction us with
  | nil => intro msgs fwd; rfl
  | cons u rest ih =>
    intro msgs fwd
    by_cases hc : u.name ∈ c
    · simp [oaHandleToolCalls, hc, List.filter_cons, ih]
    · simp [oaHandleToolCalls, hc, List.filter_cons, ih]

/-- Helper: same as `anthHandle_forwarded` for the OpenAI loop body. -/
lemma oaHandle_forwarded (c : List String) (tool : String → Json → String) :
    ∀ (us : List ToolUse) (msgs : List ChatMsg) (fwd : List (String × Json)),
      (oaHandleToolCalls c tool us msgs fwd).2.2
        = fwd ++ (us.filter (fun u => !c.contains u.name)).map
            (fun u => (u.name, u.input)) := by
  intro us
  induction us with
  | nil => intro msgs fwd; simp [oaHandleToolCalls]
  | cons u rest ih =>
    intro msgs fwd
    by_cases hc : u.name ∈ c
    · simp [oaHandleToolCalls, hc, List.filter_cons, ih]
    · simp [oaHandleToolCalls, hc, List.filter_cons, ih]

/-- Helper: same as `anthHandle_msgs` for the OpenAI loop body. -/
lemma oaHandle_msgs (c : List String) (tool : String → Json → String) :
    ∀ (us : List ToolUse) (msgs : List ChatMsg) (fwd : List (String × Json)),
      (oaHandleToolCalls c tool us msgs fwd).2.1
        = msgs ++ (us.filter (fun u => !c.contains u.name)).flatMap
            (fun u => [ChatMsg.oaToolCall u.id u.name u.input,
                       ChatMsg.oaToolResult (tool u.name u.input) u.id]) := by
  intro us
  induction us with
  | nil => intro msgs fwd; simp [oaHandleToolCalls]
  | cons u rest ih =>
    intro msgs fwd
    by_cases hc : u.name ∈ c
    · simp [oaHandleToolCalls, hc, List.filter_cons, ih]
    · simp [oaHandleToolCalls, hc, List.filter_cons, ih]

/-- Helper: result shape and call count of the Anthropic loop. -/
lemma anthropicLoop_shape (c : List String) (llm : Nat → ModelResponse)
    (tool : String → Json → String) :
    ∀ (fuel : Nat) (st : ChainState),
      ((∃ r, (anthropicLoop c llm tool fuel st).1 = .ok r)
        ∨ (anthropicLoop c llm tool fuel st).1
            = .error "Exceeded maximum tool use iterations")
      ∧ (anthropicLoop c llm tool fuel st).2.llmCalls ≤ st.llmCalls + fuel := by
  intro fuel
  induction fuel with
  | zero => intro st; exact ⟨Or.inr rfl, Nat.le_refl _⟩
  | succ n ih =>
    intro st
    rcases hh : anthHandleToolUses c tool (llm st.llmCalls).toolUses st.msgs
        st.forwarded with ⟨dcs, msgs1, fwd1⟩
    by_cases hd : dcs.isEmpty = true
    · by_cases ht : (llm st.llmCalls).content.getD "" = ""
      · have heq : anthropicLoop c llm tool (n + 1) st
            = anthropicLoop c llm tool n ⟨msgs1, fwd1, st.llmCalls + 1⟩ := by
          simp only [anthropicLoop, hh]
          rw [if_pos hd, if_pos ht]
        have h2 := ih ⟨msgs1, fwd1, st.llmCalls + 1⟩
        rw [heq]
        exact ⟨h2.1, le_trans h2.2 (by dsimp only; omega)⟩
      · have heq : anthropicLoop c llm tool (n + 1) st
            = (.ok { explanation := some ((llm st.llmCalls).content.getD ""),
                     toolCalls := [] }, ⟨msgs1, fwd1, st.llmCalls + 1⟩) := by
          simp only [anthropicLoop, hh]
          rw [if_pos hd, if_neg ht]
        rw [heq]
        exact ⟨Or.inl ⟨_, rfl⟩, by dsimp only; omega⟩
    · have heq : anthropicLoop c llm tool (n + 1) st
          = (.ok { explanation := some (pyOr (llm st.llmCalls).content
                     "Executing operations..."), toolCalls := dcs },
             ⟨msgs1, fwd1, st.llmCalls + 1⟩) := by
        simp only [anthropicLoop, hh]
        rw [if_neg hd]
      rw [heq]
      exact ⟨Or.inl ⟨_, rfl⟩, by dsimp only; omega⟩

/-- Helper: result shape and call count of the OpenAI loop. -/
lemma openaiLoop_shape (c : List String) (llm : Nat → ModelResponse)
    (tool : String → Json → String) :
    ∀ (fuel : Nat) (st : ChainState),
      ((∃ r, (openaiLoop c llm tool fuel st).1 = .ok r)
        ∨ (openaiLoop c llm tool fuel st).1
            = .error "Exceeded maximum tool use iterations")
      ∧ (openaiLoop c llm tool fuel st).2.llmCalls ≤ st.llmCalls + fuel := by
  intro fuel
  induction fuel with
  | zero => intro st; exact ⟨Or.inr rfl, Nat.le_refl _⟩
  | succ n ih =>
    intro st
    by_cases hu : (llm st.llmCalls).toolUses.isEmpty = true
    · have heq : openaiLoop c llm tool (n + 1) st
          = (.ok { explanation := (llm st.llmCalls).content, toolCalls := [] },
             { st with llmCalls := st.llmCalls + 1 }) := by
        simp only [openaiLoop]
        rw [if_pos hu]
      rw [heq]
      exact ⟨Or.inl ⟨_, rfl⟩, by dsimp only; omega⟩
    · rcases hh : oaHandleToolCalls c tool (llm st.llmCalls).toolUses st.msgs
          st.forwarded with ⟨dcs, msgs1, fwd1⟩
      by_cases hd : dcs.isEmpty = true
      · have heq : openaiLoop c llm tool (n + 1) st
            = openaiLoop c llm tool n ⟨msgs1, fwd1, st.llmCalls + 1⟩ := by
          simp only [openaiLoop, hh]
          rw [if_neg hu, if_pos hd]
        have h2 := ih ⟨msgs1, fwd1, st.llmCalls + 1⟩
        rw [heq]
        exact ⟨h2.1, le_trans h2.2 (by dsimp only; omega)⟩
      · have heq : openaiLoop c llm tool (n + 1) st
            = (.ok { explanation := some (pyOr (llm st.llmCalls).content
                       "Executing operations..."), toolCalls := dcs },
               ⟨msgs1, fwd1, st.llmCalls + 1⟩) := by
          simp only [openaiLoop, hh]
          rw [if_neg hu, if_neg hd]
        rw [heq]
        exact ⟨Or.inl ⟨_, rfl⟩, by dsimp only; omega⟩

end LLM

/-- C4: both `process_chain` loops terminate after at most `max_iterations`
completion rounds: every run either returns a structured result or raises
`SamplingError("Exceeded maximum tool use iterations")`, and the number of
completion calls made never exceeds the bound — for every tool catalogue,
every session oracle, and every sequence of model responses. -/
theorem process_chain_terminates :
    ∀ (catalogue : List String) (llm : Nat → LLM.ModelResponse)
      (tool : String → Json → String) (msgs : List LLM.ChatMsg)
      (maxIter : Nat),
      ((∃ r, (LLM.anthropic_process_chain catalogue llm tool msgs maxIter).result
          = .ok r)
        ∨ (LLM.anthropic_process_chain catalogue llm tool msgs maxIter).result
            = .error "Exceeded maximum tool use iterations")
      ∧ (LLM.anthropic_process_chain catalogue llm tool msgs maxIter).llmCalls
          ≤ maxIter
      ∧ ((∃ r, (LLM.openai_process_chain catalogue llm tool msgs maxIter).result
          = .ok r)
        ∨ (LLM.openai_process_chain catalogue llm tool msgs maxIter).result
            = .error "Exceeded maximum tool use iterations")
      ∧ (LLM.openai_process_chain catalogue llm tool msgs maxIter).llmCalls
          ≤ maxIter := by
  intro catalogue llm tool msgs maxIter
  have ha := LLM.anthropicLoop_shape catalogue llm tool maxIter ⟨msgs, [], 0⟩
  have ho := LLM.openaiLoop_shape catalogue llm tool maxIter ⟨msgs, [], 0⟩
  refine ⟨?_, ?_, ?_, ?_⟩
  · exact ha.1
  · simpa using ha.2
  · exact ho.1
  · simpa using ho.2

namespace LLM

/-- Helper: every forwarded call produced from one response has a
non-catalogue name. -/
lemma forwarded_map_all (c : List String) (us : List ToolUse) :
    (((us.filter (fun u => !c.contains u.name)).map
        (fun u => (u.name, u.input))).all (fun p => !c.contains p.1)) = true := by
  rw [List.all_eq_true]
  intro p hp
  rcases List.mem_map.mp hp with ⟨u, hu, rfl⟩
  exact (List.mem_filter.mp hu).2

/-- Helper: the Anthropic loop never adds a catalogue-named call to the
forwarded list. -/
lemma anthropicLoop_forwarded_all (c : List String) (llm : Nat → ModelResponse)
    (tool : String → Json → String) :
    ∀ (fuel : Nat) (st : ChainState),
      st.forwarded.all (fun p => !c.contains p.1) = true →
      ((anthropicLoop c llm tool fuel st).2.forwarded.all
        (fun p => !c.contains p.1)) = true := by
  intro fuel
  induction fuel with
  | zero => intro st h; exact h
  | succ n ih =>
    intro st h
    rcases hh : anthHandleToolUses c tool (llm st.llmCalls).toolUses st.msgs
        st.forwarded with ⟨dcs, msgs1, fwd1⟩
    have hchar := anthHandle_forwarded c tool (llm st.llmCalls).toolUses st.msgs
      st.forwarded
    rw [hh] at hchar
    have hfwd : fwd1.all (fun p => !c.contains p.1) = true := by
      rw [show fwd1 = (dcs, msgs1, fwd1).2.2 from rfl, hchar, List.all_append, h,
        forwarded_map_all c ((llm st.llmCalls).toolUses)]
      rfl
    by_cases hd : dcs.isEmpty = true
    · by_cases ht : (llm st.llmCalls).content.getD "" = ""
      · have heq : anthropicLoop c llm tool (n + 1) st
            = anthropicLoop c llm tool n ⟨msgs1, fwd1, st.llmCalls + 1⟩ := by
          simp only [anthropicLoop, hh]
          rw [if_pos hd, if_pos ht]
        rw [heq]
        exact ih _ hfwd
      · have heq : anthropicLoop c llm tool (n + 1) st
            = (.ok { explanation := some ((llm st.llmCalls).content.getD ""),
                     toolCalls := [] }, ⟨msgs1, fwd1, st.llmCalls + 1⟩) := by
          simp only [anthropicLoop, hh]
          rw [if_pos hd, if_neg ht]
        rw [heq]
        exact hfwd
    · have heq : anthropicLoop c llm tool (n + 1) st
          = (.ok { explanation := some (pyOr (llm st.llmCalls).content
                     "Executing operations..."), toolCalls := dcs },
             ⟨msgs1, fwd1, st.llmCalls + 1⟩) := by
        simp only [anthropicLoop, hh]
        rw [if_neg hd]
      rw [heq]
      exact hfwd

/-- Helper: the OpenAI loop never adds a catalogue-named call to the
forwarded list. -/
lemma openaiLoop_forwarded_all (c : List String) (llm : Nat → ModelResponse)
    (tool : String → Json → String) :
    ∀ (fuel : Nat) (st : ChainState),
      st.forwarded.all (fun p => !c.contains p.1) = true →
      ((openaiLoop c llm tool fuel st).2.forwarded.all
        (fun p => !c.contains p.1)) = true := by
  intro fuel
  induction fuel with
  | zero => intro st h; exact h
  | succ n ih =>
    intro st h
    by_cases hu : (llm st.llmCalls).toolUses.isEmpty = true
    · have heq : openaiLoop c llm tool (n + 1) st
          = (.ok { explanation := (llm st.llmCalls).content, toolCalls := [] },
             { st with llmCalls := st.llmCalls + 1 }) := by
        simp only [openaiLoop]
        rw [if_pos hu]
      rw [heq]
      exact h
    · rcases hh : oaHandleToolCalls c tool (llm st.llmCalls).toolUses st.msgs
          st.forwarded with ⟨dcs, msgs1, fwd1⟩
      have hchar := oaHandle_forwarded c tool (llm st.llmCalls).toolUses st.msgs
        st.forwarded
      rw [hh] at hchar
      have hfwd : fwd1.all (fun p => !c.contains p.1) = true := by
        rw [show fwd1 = (dcs, msgs1, fwd1).2.2 from rfl, hchar, List.all_append, h,
          forwarded_map_all c ((llm st.llmCalls).toolUses)]
        rfl
      by_cases hd : dcs.isEmpty = true
      · have heq : openaiLoop c llm tool (n + 1) st
            = openaiLoop c llm tool n ⟨msgs1, fwd1, st.llmCalls + 1⟩ := by
          simp only [openaiLoop, hh]
          rw [if_neg hu, if_pos hd]
        rw [heq]
        exact ih _ hfwd
      · have heq : openaiLoop c llm tool (n + 1) st
            = (.ok { explanation := some (pyOr (llm st.llmCalls).content
                       "Executing operations..."), toolCalls := dcs },
               ⟨msgs1, fwd1, st.llmCalls + 1⟩) := by
          simp only [openaiLoop, hh]
          rw [if_neg hu, if_neg hd]
        rw [heq]
        exact hfwd

end LLM

/-- C6: catalogue membership wins in both backend loops (whether or not the
same name also appears among the discovered server tools, which the branch
never consults): the domain calls recorded from one response are exactly its
catalogue-named tool uses in order, the calls forwarded to the MCP session
are exactly its non-catalogue tool uses in order, and over a whole
`process_chain` run no forwarded call ever carries a catalogue name. -/
theorem catalogue_membership_wins :
    ∀ (catalogue : List String) (tool : String → Json → String)
      (us : List LLM.ToolUse) (msgs : List LLM.ChatMsg)
      (fwd : List (String × Json)),
      (LLM.anthHandleToolUses catalogue tool us msgs fwd).1
        = (us.filter (fun u => catalogue.contains u.name)).map
            (fun u => { type := u.name, params := u.input })
      ∧ (LLM.anthHandleToolUses catalogue tool us msgs fwd).2.2
        = fwd ++ (us.filter (fun u => !catalogue.contains u.name)).map
            (fun u => (u.name, u.input))
      ∧ (LLM.oaHandleToolCalls catalogue tool us msgs fwd).1
        = (us.filter (fun u => catalogue.contains u.name)).map
            (fun u => { type := u.name, params := u.input })
      ∧ (LLM.oaHandleToolCalls catalogue tool us msgs fwd).2.2
        = fwd ++ (us.filter (fun u => !catalogue.contains u.name)).map
            (fun u => (u.name, u.input))
      ∧ ∀ (llm : Nat → LLM.ModelResponse) (maxIter : Nat),
          ((LLM.anthropic_process_chain catalogue llm tool msgs maxIter).forwarded.all
            (fun p => !catalogue.contains p.1)) = true
          ∧ ((LLM.openai_process_chain catalogue llm tool msgs maxIter).forwarded.all
            (fun p => !catalogue.contains p.1)) = true := by
  intro catalogue tool us msgs fwd
  refine ⟨LLM.anthHandle_domain_calls catalogue tool us msgs fwd,
    LLM.anthHandle_forwarded catalogue tool us msgs fwd,
    LLM.oaHandle_domain_calls catalogue tool us msgs fwd,
    LLM.oaHandle_forwarded catalogue tool us msgs fwd, ?_⟩
  intro llm maxIter
  exact ⟨LLM.anthropicLoop_forwarded_all catalogue llm tool maxIter ⟨msgs, [], 0⟩ rfl,
    LLM.openaiLoop_forwarded_all catalogue llm tool maxIter ⟨msgs, [], 0⟩ rfl⟩

namespace LLM

/-- Helper: when the next response proposes at least one catalogue tool
call, the Anthropic loop returns immediately with the recorded domain calls
and the text (or default) explanation. -/
lemma anthropicLoop_domain_step (c : List String) (llm : Nat → ModelResponse)
    (tool : String → Json → String) (fuel : Nat) (st : ChainState)
    (hne : ((llm st.llmCalls).toolUses.filter (fun u => c.contains u.name)) ≠ []) :
    (anthropicLoop c llm tool (fuel + 1) st).1
      = .ok { explanation := some (pyOr (llm st.llmCalls).content
                "Executing operations..."),
              toolCalls := ((llm st.llmCalls).toolUses.filter
                  (fun u => c.contains u.name)).map
                (fun u => { type := u.name, params := u.input }) } := by
  rcases hh : anthHandleToolUses c tool (llm st.llmCalls).toolUses st.msgs
      st.forwarded with ⟨dcs, msgs1, fwd1⟩
  have hd : dcs = ((llm st.llmCalls).toolUses.filter
      (fun u => c.contains u.name)).map (fun u => { type := u.name, params := u.input }) := by
    have := anthHandle_domain_calls c tool (llm st.llmCalls).toolUses st.msgs
      st.forwarded
    rw [hh] at this
    exact this
  have hdne : ¬(dcs.isEmpty = true) := by
    rw [hd]
    simp only [List.isEmpty_eq_true, List.map_eq_nil_iff]
    exact hne
  simp only [anthropicLoop, hh]
  rw [if_neg hdne, hd]

/-- Helper: same as `anthropicLoop_domain_step` for the OpenAI loop. -/
lemma openaiLoop_domain_step (c : List String) (llm : Nat → ModelResponse)
    (tool : String → Json → String) (fuel : Nat) (st : ChainState)
    (hne : ((llm st.llmCalls).toolUses.filter (fun u => c.contains u.name)) ≠ []) :
    (openaiLoop c llm tool (fuel + 1) st).1
      = .ok { explanation := some (pyOr (llm st.llmCalls).content
                "Executing operations..."),
              toolCalls := ((llm st.llmCalls).toolUses.filter
                  (fun u => c.contains u.name)).map
                (fun u => { type := u.name, params := u.input }) } := by
  have hu : ¬((llm st.llmCalls).toolUses.isEmpty = true) := by
    simp only [List.isEmpty_eq_true]
    intro hcontra
    exact hne (by rw [hcontra]; rfl)
  rcases hh : oaHandleToolCalls c tool (llm st.llmCalls).toolUses st.msgs
      st.forwarded with ⟨dcs, msgs1, fwd1⟩
  have hd : dcs = ((llm st.llmCalls).toolUses.filter
      (fun u => c.contains u.name)).map (fun u => { type := u.name, params := u.input }) := by
    have := oaHandle_domain_calls c tool (llm st.llmCalls).toolUses st.msgs
      st.forwarded
    rw [hh] at this
    exact this
  have hdne : ¬(dcs.isEmpty = true) := by
    rw [hd]
    simp only [List.isEmpty_eq_true, List.map_eq_nil_iff]
    exact hne
  simp only [openaiLoop, hh]
  rw [if_neg hu, if_neg hdne, hd]

/-- Helper: when the next response has no tool calls and nonempty text, the
Anthropic loop returns the text. -/
lemma anthropicLoop_text_step (c : List String) (llm : Nat → ModelResponse)
    (tool : String → Json → String) (fuel : Nat) (st : ChainState)
    (hus : (llm st.llmCalls).toolUses = [])
    (ht : (llm st.llmCalls).content.getD "" ≠ "") :
    (anthropicLoop c llm tool (fuel + 1) st).1
      = .ok { explanation := some ((llm st.llmCalls).content.getD ""),
              toolCalls := [] } := by
  have hh : anthHandleToolUses c tool (llm st.llmCalls).toolUses st.msgs
      st.forwarded = ([], st.msgs, st.forwarded) := by
    rw [hus]; rfl
  simp only [anthropicLoop, hh]
  rw [if_pos (show (List.isEmpty ([] : List DomainCall)) = true from rfl),
    if_neg ht]

/-- Helper: when the next response has no tool calls, the OpenAI loop
returns `message.content` verbatim. -/
lemma openaiLoop_empty_step (c : List String) (llm : Nat → ModelResponse)
    (tool : String → Json → String) (fuel : Nat) (st : ChainState)
    (hus : (llm st.llmCalls).toolUses = []) :
    (openaiLoop c llm tool (fuel + 1) st).1
      = .ok { explanation := (llm st.llmCalls).content, toolCalls := [] } := by
  have hu : (llm st.llmCalls).toolUses.isEmpty = true := by rw [hus]; rfl
  simp only [openaiLoop]
  rw [if_pos hu]

end LLM

/-- C5 (amended): the two `process_chain` implementations agree — same
explanation and same ordered `tool_calls` — on every input whose FIRST model
response is decisive: it contains at least one catalogue tool call, or it
has no tool calls and nonempty text.  They are not interchangeable in
general: their default `max_iterations` differ (Anthropic 5, OpenAI 10), and
a first response with neither tool calls nor text is returned immediately by
OpenAI (with a null explanation) but skipped by Anthropic, which keeps
iterating. -/
theorem backends_agree_on_decisive_first_response :
    ∀ (catalogue : List String) (llm : Nat → LLM.ModelResponse)
      (tool : String → Json → String) (msgs : List LLM.ChatMsg),
      ((llm 0).toolUses.any (fun u => catalogue.contains u.name) = true
        ∨ ((llm 0).toolUses = [] ∧ (llm 0).content.getD "" ≠ "")) →
      (LLM.anthropic_process_chain catalogue llm tool msgs).result
        = (LLM.openai_process_chain catalogue llm tool msgs).result := by
  intro catalogue llm tool msgs hdec
  have hst : (LLM.ChainState.mk msgs [] 0).llmCalls = 0 := rfl
  rcases hdec with hany | ⟨hus, ht⟩
  · have hne : ((llm 0).toolUses.filter (fun u => catalogue.contains u.name)) ≠ [] := by
      rcases List.any_eq_true.mp hany with ⟨u, hu, hp⟩
      intro hcontra
      have : u ∈ (llm 0).toolUses.filter (fun u => catalogue.contains u.name) :=
        List.mem_filter.mpr ⟨hu, hp⟩
      rw [hcontra] at this
      cases this
    have ha := LLM.anthropicLoop_domain_step catalogue llm tool 4
      ⟨msgs, [], 0⟩ (by rw [hst]; exact hne)
    have ho := LLM.openaiLoop_domain_step catalogue llm tool 9
      ⟨msgs, [], 0⟩ (by rw [hst]; exact hne)
    show (LLM.anthropicLoop catalogue llm tool 5 ⟨msgs, [], 0⟩).1
      = (LLM.openaiLoop catalogue llm tool 10 ⟨msgs, [], 0⟩).1
    rw [show (5 : Nat) = 4 + 1 from rfl, show (10 : Nat) = 9 + 1 from rfl, ha, ho]
  · have ha := LLM.anthropicLoop_text_step catalogue llm tool 4
      ⟨msgs, [], 0⟩ (by rw [hst]; exact hus) (by rw [hst]; exact ht)
    have ho := LLM.openaiLoop_empty_step catalogue llm tool 9
      ⟨msgs, [], 0⟩ (by rw [hst]; exact hus)
    show (LLM.anthropicLoop catalogue llm tool 5 ⟨msgs, [], 0⟩).1
      = (LLM.openaiLoop catalogue llm tool 10 ⟨msgs, [], 0⟩).1
    rw [show (5 : Nat) = 4 + 1 from rfl, show (10 : Nat) = 9 + 1 from rfl, ha, ho]
    cases hc : (llm 0).content with
    | none => rw [hc] at ht; simp at ht
    | some t => simp [hc]

/-- Witness for `backends_agree_on_decisive_first_response`: a first
response carrying a catalogue tool call. -/
theorem backends_agree_on_decisive_first_response_witness :
    (LLM.anthropic_process_chain ["create_chart"] c5wLLM exTool []).result
      = (LLM.openai_process_chain ["create_chart"] c5wLLM exTool []).result :=
  backends_agree_on_decisive_first_response ["create_chart"] c5wLLM exTool []
    (Or.inl rfl)

/-- C5_counterexample: the two backends are NOT interchangeable on the same
input and the same response sequence: on a first response with neither tool
calls nor text followed by a text response, OpenAI returns immediately with
a null explanation while Anthropic skips the empty response and returns the
second response's text. -/
theorem backends_diverge_on_empty_response :
    (LLM.anthropic_process_chain [] c5LLM exTool []).result
      = .ok { explanation := some "hi", toolCalls := [] }
    ∧ (LLM.openai_process_chain [] c5LLM exTool []).result
      = .ok { explanation := none, toolCalls := [] }
    ∧ (some "hi" : Option String) ≠ none :=
  ⟨rfl, rfl, by decide⟩

namespace LLM

/-- Helper: the Anthropic loop only ever appends to the message list. -/
lemma anthropicLoop_msgs_extend (c : List String) (llm : Nat → ModelResponse)
    (tool : String → Json → String) :
    ∀ (fuel : Nat) (st : ChainState),
      ∃ ext, (anthropicLoop c llm tool fuel st).2.msgs = st.msgs ++ ext := by
  intro fuel
  induction fuel with
  | zero => intro st; exact ⟨[], by simp [anthropicLoop]⟩
  | succ n ih =>
    intro st
    rcases hh : anthHandleToolUses c tool (llm st.llmCalls).toolUses st.msgs
        st.forwarded with ⟨dcs, msgs1, fwd1⟩
    have hm : msgs1 = st.msgs ++ ((llm st.llmCalls).toolUses.filter
        (fun u => !c.contains u.name)).flatMap
          (fun u => [ChatMsg.anthToolUse u.id u.name u.input,
                     ChatMsg.anthToolResult u.id (tool u.name u.input)]) := by
      have := anthHandle_msgs c tool (llm st.llmCalls).toolUses st.msgs st.forwarded
      rw [hh] at this
      exact this
    by_cases hd : dcs.isEmpty = true
    · by_cases ht : (llm st.llmCalls).content.getD "" = ""
      · have heq : anthropicLoop c llm tool (n + 1) st
            = anthropicLoop c llm tool n ⟨msgs1, fwd1, st.llmCalls + 1⟩ := by
          simp only [anthropicLoop, hh]
          rw [if_pos hd, if_pos ht]
        obtain ⟨ext2, h2⟩ := ih ⟨msgs1, fwd1, st.llmCalls + 1⟩
        refine ⟨((llm st.llmCalls).toolUses.filter
            (fun u => !c.contains u.name)).flatMap
              (fun u => [ChatMsg.anthToolUse u.id u.name u.input,
                         ChatMsg.anthToolResult u.id (tool u.name u.input)])
            ++ ext2, ?_⟩
        rw [heq, h2]
        show msgs1 ++ ext2 = _
        rw [hm, List.append_assoc]
      · have heq : anthropicLoop c llm tool (n + 1) st
            = (.ok { explanation := some ((llm st.llmCalls).content.getD ""),
                     toolCalls := [] }, ⟨msgs1, fwd1, st.llmCalls + 1⟩) := by
          simp only [anthropicLoop, hh]
          rw [if_pos hd, if_neg ht]
        rw [heq]
        exact ⟨_, hm⟩
    · have heq : anthropicLoop c llm tool (n + 1) st
          = (.ok { explanation := some (pyOr (llm st.llmCalls).content
                     "Executing operations..."), toolCalls := dcs },
             ⟨msgs1, fwd1, st.llmCalls + 1⟩) := by
        simp only [anthropicLoop, hh]
        rw [if_neg hd]
      rw [heq]
      exact ⟨_, hm⟩

/-- Helper: the OpenAI loop only ever appends to its private message
list. -/
lemma openaiLoop_msgs_extend (c : List String) (llm : Nat → ModelResponse)
    (tool : String → Json → String) :
    ∀ (fuel : Nat) (st : ChainState),
      ∃ ext, (openaiLoop c llm tool fuel st).2.msgs = st.msgs ++ ext := by
  intro fuel
  induction fuel with
  | zero => intro st; exact ⟨[], by simp [openaiLoop]⟩
  | succ n ih =>
    intro st
    by_cases hu : (llm st.llmCalls).toolUses.isEmpty = true
    · have heq : openaiLoop c llm tool (n + 1) st
          = (.ok { explanation := (llm st.llmCalls).content, toolCalls := [] },
             { st with llmCalls := st.llmCalls + 1 }) := by
        simp only [openaiLoop]
        rw [if_pos hu]
      rw [heq]
      exact ⟨[], by simp⟩
    · rcases hh : oaHandleToolCalls c tool (llm st.llmCalls).toolUses st.msgs
          st.forwarded with ⟨dcs, msgs1, fwd1⟩
      have hm : msgs1 = st.msgs ++ ((llm st.llmCalls).toolUses.filter
          (fun u => !c.contains u.name)).flatMap
            (fun u => [ChatMsg.oaToolCall u.id u.name u.input,
                       ChatMsg.oaToolResult (tool u.name u.input) u.id]) := by
        have := oaHandle_msgs c tool (llm st.llmCalls).toolUses st.msgs st.forwarded
        rw [hh] at this
        exact this
      by_cases hd : dcs.isEmpty = true
      · have heq : openaiLoop c llm tool (n + 1) st
            = openaiLoop c llm tool n ⟨msgs1, fwd1, st.llmCalls + 1⟩ := by
          simp only [openaiLoop, hh]
          rw [if_neg hu, if_pos hd]
        obtain ⟨ext2, h2⟩ := ih ⟨msgs1, fwd1, st.llmCalls + 1⟩
        refine ⟨((llm st.llmCalls).toolUses.filter
            (fun u => !c.contains u.name)).flatMap
              (fun u => [ChatMsg.oaToolCall u.id u.name u.input,
                         ChatMsg.oaToolResult (tool u.name u.input) u.id])
            ++ ext2, ?_⟩
        rw [heq, h2]
        show msgs1 ++ ext2 = _
        rw [hm, List.append_assoc]
      · have heq : openaiLoop c llm tool (n + 1) st
            = (.ok { explanation := some (pyOr (llm st.llmCalls).content
                       "Executing operations..."), toolCalls := dcs },
               ⟨msgs1, fwd1, st.llmCalls + 1⟩) := by
          simp only [openaiLoop, hh]
          rw [if_neg hu, if_neg hd]
        rw [heq]
        exact ⟨_, hm⟩

end LLM

/-- C10: the two backends differ in whether `process_chain` mutates the
caller's message list.  `OpenAIService.process_chain` copies the messages
into a private list, so the caller-supplied list is unchanged on every
execution path; `AnthropicService.process_chain` extends the caller's list
in place, so after a run whose first response proposes one non-catalogue
(server) tool, the caller observes its list grown by the assistant
tool-use/tool-result pair — while OpenAI performs the same growth only on
its private copy. -/
theorem message_list_mutation_difference :
    ∀ (catalogue : List String) (llm : Nat → LLM.ModelResponse)
      (tool : String → Json → String) (msgs : List LLM.ChatMsg)
      (maxIter : Nat) (u : LLM.ToolUse),
      (LLM.openai_process_chain catalogue llm tool msgs maxIter).callerMsgs = msgs
      ∧ ((llm 0).toolUses = [u] → catalogue.contains u.name = false →
          maxIter ≠ 0 →
          (∃ ext, (LLM.anthropic_process_chain catalogue llm tool msgs
              maxIter).callerMsgs
            = msgs ++ LLM.ChatMsg.anthToolUse u.id u.name u.input
                :: LLM.ChatMsg.anthToolResult u.id (tool u.name u.input) :: ext)
          ∧ (∃ ext, (LLM.openai_process_chain catalogue llm tool msgs
              maxIter).internalMsgs
            = msgs ++ LLM.ChatMsg.oaToolCall u.id u.name u.input
                :: LLM.ChatMsg.oaToolResult (tool u.name u.input) u.id :: ext)) := by
  intro catalogue llm tool msgs maxIter u
  refine ⟨rfl, ?_⟩
  intro h1 h2 h3
  cases maxIter with
  | zero => exact absurd rfl h3
  | succ k =>
    have hcm : ¬(catalogue.contains u.name = true) := by rw [h2]; simp
    have hha : LLM.anthHandleToolUses catalogue tool (llm 0).toolUses msgs []
        = ([], msgs ++ [LLM.ChatMsg.anthToolUse u.id u.name u.input,
                        LLM.ChatMsg.anthToolResult u.id (tool u.name u.input)],
           [(u.name, u.input)]) := by
      rw [h1]
      simp only [LLM.anthHandleToolUses]
      rw [if_neg hcm]
      rfl
    have hho : LLM.oaHandleToolCalls catalogue tool (llm 0).toolUses msgs []
        = ([], msgs ++ [LLM.ChatMsg.oaToolCall u.id u.name u.input,
                        LLM.ChatMsg.oaToolResult (tool u.name u.input) u.id],
           [(u.name, u.input)]) := by
      rw [h1]
      simp only [LLM.oaHandleToolCalls]
      rw [if_neg hcm]
      rfl
    constructor
    · -- Anthropic: the caller-visible list is the mutated loop list
      show ∃ ext, (LLM.anthropicLoop catalogue llm tool (k + 1)
          ⟨msgs, [], 0⟩).2.msgs = _
      by_cases ht : (llm 0).content.getD "" = ""
      · have heq : LLM.anthropicLoop catalogue llm tool (k + 1) ⟨msgs, [], 0⟩
            = LLM.anthropicLoop catalogue llm tool k
                ⟨msgs ++ [LLM.ChatMsg.anthToolUse u.id u.name u.input,
                          LLM.ChatMsg.anthToolResult u.id (tool u.name u.input)],
                 [(u.name, u.input)], 1⟩ := by
          simp only [LLM.anthropicLoop, hha]
          rw [if_pos (show (List.isEmpty ([] : List LLM.DomainCall)) = true from rfl),
            if_pos ht]
        obtain ⟨ext2, h4⟩ := LLM.anthropicLoop_msgs_extend catalogue llm tool k
          ⟨msgs ++ [LLM.ChatMsg.anthToolUse u.id u.name u.input,
                    LLM.ChatMsg.anthToolResult u.id (tool u.name u.input)],
           [(u.name, u.input)], 1⟩
        rw [heq, h4]
        exact ⟨ext2, by simp⟩
      · have heq : LLM.anthropicLoop catalogue llm tool (k + 1) ⟨msgs, [], 0⟩
            = (.ok { explanation := some ((llm 0).content.getD ""),
                     toolCalls := [] },
               ⟨msgs ++ [LLM.ChatMsg.anthToolUse u.id u.name u.input,
                         LLM.ChatMsg.anthToolResult u.id (tool u.name u.input)],
                [(u.name, u.input)], 1⟩) := by
          simp only [LLM.anthropicLoop, hha]
          rw [if_pos (show (List.isEmpty ([] : List LLM.DomainCall)) = true from rfl),
            if_neg ht]
        rw [heq]
        exact ⟨[], by simp⟩
    · -- OpenAI: the private copy grows the same way
      show ∃ ext, (LLM.openaiLoop catalogue llm tool (k + 1)
          ⟨msgs, [], 0⟩).2.msgs = _
      have hu : ¬((llm 0).toolUses.isEmpty = true) := by rw [h1]; simp
      have heq : LLM.openaiLoop catalogue llm tool (k + 1) ⟨msgs, [], 0⟩
          = LLM.openaiLoop catalogue llm tool k
              ⟨msgs ++ [LLM.ChatMsg.oaToolCall u.id u.name u.input,
                        LLM.ChatMsg.oaToolResult (tool u.name u.input) u.id],
               [(u.name, u.input)], 1⟩ := by
        simp only [LLM.openaiLoop, hho]
        rw [if_neg hu,
          if_pos (show (List.isEmpty ([] : List LLM.DomainCall)) = true from rfl)]
      obtain ⟨ext2, h4⟩ := LLM.openaiLoop_msgs_extend catalogue llm tool k
        ⟨msgs ++ [LLM.ChatMsg.oaToolCall u.id u.name u.input,
                  LLM.ChatMsg.oaToolResult (tool u.name u.input) u.id],
         [(u.name, u.input)], 1⟩
      rw [heq, h4]
      exact ⟨ext2, by simp⟩

/-- Witness for `message_list_mutation_difference`: a one-iteration run with
one server tool call, showing the caller's list unchanged for OpenAI and
grown in place for Anthropic. -/
theorem message_list_mutation_difference_witness :
    (LLM.openai_process_chain []
        (fun _ => { content := none,
                    toolUses := [{ id := "c1", name := "query_database",
                                   input := Json.obj [] }] })
        exTool [] 1).callerMsgs = ([] : List LLM.ChatMsg)
    ∧ (∃ ext, (LLM.anthropic_process_chain []
        (fun _ => { content := none,
                    toolUses := [{ id := "c1", name := "query_database",
                                   input := Json.obj [] }] })
        exTool [] 1).callerMsgs
      = [] ++ LLM.ChatMsg.anthToolUse "c1" "query_database" (Json.obj [])
          :: LLM.ChatMsg.anthToolResult "c1" (exTool "query_database" (Json.obj []))
          :: ext)
    ∧ (∃ ext, (LLM.openai_process_chain []
        (fun _ => { content := none,
                    toolUses := [{ id := "c1", name := "query_database",
                                   input := Json.obj [] }] })
        exTool [] 1).internalMsgs
      = [] ++ LLM.ChatMsg.oaToolCall "c1" "query_database" (Json.obj [])
          :: LLM.ChatMsg.oaToolResult (exTool "query_database" (Json.obj [])) "c1"
          :: ext) :=
  have h := message_list_mutation_difference []
    (fun _ => { content := none,
                toolUses := [{ id := "c1", name := "query_database",
                               input := Json.obj [] }] })
    exTool [] 1
    { id := "c1", name := "query_database", input := Json.obj [] }
  ⟨h.1, (h.2 rfl rfl (by decide)).1, (h.2 rfl rfl (by decide)).2⟩
